import Mathlib

/-!
# Verification of the stats-collector persistence layer (`data_interface.py`)

A shallow embedding of the persistence and domain logic layer of the
stats-collector repository.  Python values appearing in payload mappings are
modelled by `PyVal`; `datetime.datetime` values by `PyDatetime` (a wall-clock
reading in seconds together with an optional UTC offset, `none` meaning a
naive value); the database state by `DBState` holding the three tables
(`nodes`, `firmware_files`, `stats_entries`) as lists together with the
autoincrement counter of the telemetry surrogate key.

Operations return `Except PyError DBState`-shaped results.  A raised
exception propagates out of the `with Session(...)` block before
`session.commit()` is reached, so the transaction is rolled back: the
post-state of a failing call is the pre-state.  The `apply...` wrappers make
this rollback semantics explicit.

Errors raised by the source are Python `AttributeError` / `ValueError` /
`TypeError` / `KeyError`; the specification's `ValidationError` taxonomy
names the caller-fault members of this family (missing telemetry key,
oversized node name, unparsable firmware filename), which the routing layer
translates to HTTP 400.
-/

/-- Firmware blobs: a byte sequence. -/
abbrev Bytes := List Nat

/-- The Python exceptions raised by `data_interface.py` and the standard
library functions it calls.  `attributeError` is raised for a missing
payload key and for an invalid firmware filename; `valueError` for an
oversized node name and by `datetime.fromisoformat` on a malformed string;
`typeError` by `fromisoformat` applied to a non-string. -/
inductive PyError where
  | attributeError (msg : String)
  | valueError (msg : String)
  | typeError (msg : String)
  | keyError (msg : String)
deriving DecidableEq, Repr

/-- Model of `datetime.datetime`: a wall-clock reading measured in seconds
on a linear proleptic-Gregorian scale, plus the `utcoffset` in seconds.
`utcOffsetSeconds = none` models a naive datetime. -/
structure PyDatetime where
  wallSeconds : Int
  utcOffsetSeconds : Option Int
deriving DecidableEq, Repr

/-- Model of `d.astimezone(datetime.timezone.utc)`: an aware value is
converted preserving the instant; a naive value is interpreted as system
local time (offset `localOff` seconds) and then converted.  The result is
always aware with offset `0` (UTC). -/
def PyDatetime.astimezoneUtc (localOff : Int) (d : PyDatetime) : PyDatetime :=
  match d.utcOffsetSeconds with
  | some off => { wallSeconds := d.wallSeconds - off, utcOffsetSeconds := some 0 }
  | Option.none => { wallSeconds := d.wallSeconds - localOff, utcOffsetSeconds := some 0 }

/-- Gregorian leap-year rule. -/
def isLeapYear (y : Int) : Bool :=
  (y % 4 == 0 && y % 100 != 0) || y % 400 == 0

/-- Days in the months January..December of year `y`. -/
def daysInMonth (y : Int) (m : Nat) : Nat :=
  if m == 2 then (if isLeapYear y then 29 else 28)
  else if m == 4 || m == 6 || m == 9 || m == 11 then 30
  else 31

/-- Days in the months strictly before month `m` of year `y`. -/
def daysBeforeMonth (y : Int) (m : Nat) : Nat :=
  (List.range (m - 1)).foldl (fun acc i => acc + daysInMonth y (i + 1)) 0

/-- Day number of the proleptic Gregorian date `y-m-d`, counted from
0001-01-01 as day 0. -/
def daysFromCivil (y : Int) (m d : Nat) : Int :=
  365 * (y - 1) + Int.fdiv (y - 1) 4 - Int.fdiv (y - 1) 100 + Int.fdiv (y - 1) 400
    + (daysBeforeMonth y m : Int) + ((d : Int) - 1)

/-- Numeric value of a decimal digit character. -/
def digitVal (c : Char) : Nat := c.toNat - '0'.toNat

/-- Consume exactly `k` decimal digits from the front of `l`, returning
their value and the rest. -/
def parseDigitsAux : Nat → Nat → List Char → Option (Nat × List Char)
  | 0, acc, l => some (acc, l)
  | Nat.succ k, acc, l =>
    match l with
    | c :: rest =>
      if c.isDigit then parseDigitsAux k (acc * 10 + digitVal c) rest else Option.none
    | [] => Option.none

/-- Parse the optional `±HH:MM` UTC-offset suffix of an ISO-8601 string
(empty input means a naive value). -/
def parseIsoOffset : List Char → Option (Option Int)
  | [] => some Option.none
  | c :: rest =>
    if c == '+' || c == '-' then
      match parseDigitsAux 2 0 rest with
      | some (oh, ':' :: rest2) =>
        match parseDigitsAux 2 0 rest2 with
        | some (om, []) =>
          if oh ≤ 23 && om ≤ 59 then
            let total : Int := (oh : Int) * 3600 + (om : Int) * 60
            some (some (if c == '-' then -total else total))
          else Option.none
        | _ => Option.none
      | _ => Option.none
    else Option.none

/-- Parse the `HH:MM[:SS]` time-of-day part, returning seconds past
midnight and the remaining characters (the offset suffix). -/
def parseIsoTime (l : List Char) : Option (Nat × List Char) :=
  match parseDigitsAux 2 0 l with
  | some (h, ':' :: rest) =>
    match parseDigitsAux 2 0 rest with
    | some (mi, rest2) =>
      if h ≤ 23 && mi ≤ 59 then
        match rest2 with
        | ':' :: rest3 =>
          match parseDigitsAux 2 0 rest3 with
          | some (s, rest4) => if s ≤ 59 then some (h * 3600 + mi * 60 + s, rest4) else Option.none
          | Option.none => Option.none
        | _ => some (h * 3600 + mi * 60, rest2)
      else Option.none
    | Option.none => Option.none
  | _ => Option.none

/-- Model of `datetime.datetime.fromisoformat`, restricted to the shapes
`YYYY-MM-DD`, `YYYY-MM-DD(T| )HH:MM[:SS]`, each optionally followed by a
`±HH:MM` UTC offset.  Returns `none` where the library raises
`ValueError`. -/
def fromisoformat (s : String) : Option PyDatetime :=
  match parseDigitsAux 4 0 s.toList with
  | some (y, '-' :: r1) =>
    match parseDigitsAux 2 0 r1 with
    | some (mo, '-' :: r2) =>
      match parseDigitsAux 2 0 r2 with
      | some (d, r3) =>
        if 1 ≤ mo && mo ≤ 12 && 1 ≤ d && d ≤ daysInMonth (y : Int) mo then
          let dayPart : Int := daysFromCivil (y : Int) mo d * 86400
          match r3 with
          | [] => some { wallSeconds := dayPart, utcOffsetSeconds := Option.none }
          | sep :: r4 =>
            if sep == 'T' || sep == ' ' then
              match parseIsoTime r4 with
              | some (secs, r5) =>
                match parseIsoOffset r5 with
                | some off => some { wallSeconds := dayPart + (secs : Int), utcOffsetSeconds := off }
                | Option.none => Option.none
              | Option.none => Option.none
            else Option.none
        else Option.none
      | Option.none => Option.none
    | _ => Option.none
  | _ => Option.none

/-- A Python value as it appears in a telemetry payload mapping. -/
inductive PyVal where
  | none
  | int (n : Int)
  | float (q : ℚ)
  | str (s : String)
  | dt (d : PyDatetime)
deriving DecidableEq, Repr

/-- Model of Python `str(v)`.  Only the integer case is exercised by the
interface (node auto-naming uses `str(stats["id"])`); the remaining
renderings are nominal. -/
def PyVal.pyStr : PyVal → String
  | PyVal.none => "None"
  | PyVal.int n => toString n
  | PyVal.float q => toString q
  | PyVal.str s => s
  | PyVal.dt _ => "<datetime>"

/-- A payload mapping (Python dict) as a key/value association list. -/
abbrev Payload := List (String × PyVal)

/-- Dictionary lookup (`k in stats` / `stats[k]`). -/
def dictGet (stats : Payload) (k : String) : Option PyVal :=
  match stats with
  | [] => Option.none
  | (k', v) :: rest => if k' = k then some v else dictGet rest k

/-! ## Firmware filename parsing

`FW_FILE_RE = re.compile(r"^(\w+)-((\d+\.)*\d+)-([a-fA-F0-9]{32})\.bin")`
applied with `re.match` (anchored at the start of the string only; the
pattern carries no `$`, so trailing characters after `.bin` are allowed).

Because `\w`, `\d` and `[a-fA-F0-9]` all exclude `-`, and `\d`/`.` exclude
the `-` that must follow the version group, the regex admits no
backtracking choice: the name group is exactly the leading run of word
characters, the version group exactly the following run of digit/dot
characters, and the hash exactly the next 32 characters.  `fwMatchList`
implements that deterministic reading. -/

/-- Python's `\w` character class (ASCII reading): letters, digits, `_`. -/
def isWordChar (c : Char) : Bool := c.isAlphanum || c == '_'

/-- The `[a-fA-F0-9]` character class. -/
def isHexDigitChar (c : Char) : Bool :=
  c.isDigit || ('a' ≤ c && c ≤ 'f') || ('A' ≤ c && c ≤ 'F')

/-- A digit-or-dot character, the alphabet of the version group. -/
def isVerChar (c : Char) : Bool := c.isDigit || c == '.'

/-- Scanner for the version language `(\d+\.)*\d+`.  The flag records
whether at least one digit is still required (at the start and right
after each dot). -/
def versionScan : Bool → List Char → Bool
  | needDigit, [] => !needDigit
  | true, c :: rest => c.isDigit && versionScan false rest
  | false, c :: rest =>
    if c == '.' then versionScan true rest
    else c.isDigit && versionScan false rest

/-- `versionOk v` holds when `v` is matched in full by `(\d+\.)*\d+`. -/
def versionOk (v : List Char) : Bool := versionScan true v

/-- Consume one expected literal character. -/
def expectChar (c : Char) : List Char → Option (List Char)
  | [] => Option.none
  | x :: rest => if x = c then some rest else Option.none

/-- Does the list start with the literal `.bin`? -/
def dotBinOk (l : List Char) : Bool :=
  match expectChar '.' l with
  | some l1 =>
    match expectChar 'b' l1 with
    | some l2 =>
      match expectChar 'i' l2 with
      | some l3 => (expectChar 'n' l3).isSome
      | Option.none => false
    | Option.none => false
  | Option.none => false

/-- `FW_FILE_RE.match fname`: returns the three captured groups
(name, lib_version, hash) or `none` when the pattern does not match at
the start of the string.  The name group is the leading run of word
characters, the version group the following run of digit/dot characters,
the hash the next 32 characters; trailing characters after `.bin` are
ignored (the pattern is not `$`-anchored). -/
def fwMatchList (l : List Char) : Option (List Char × List Char × List Char) :=
  if (l.takeWhile isWordChar).isEmpty then Option.none else
  match expectChar '-' (l.dropWhile isWordChar) with
  | Option.none => Option.none
  | some r2 =>
    if versionOk (r2.takeWhile isVerChar) then
      match expectChar '-' (r2.dropWhile isVerChar) with
      | Option.none => Option.none
      | some r4 =>
        if (r4.take 32).length == 32 && (r4.take 32).all isHexDigitChar &&
            dotBinOk (r4.drop 32) then
          some (l.takeWhile isWordChar, r2.takeWhile isVerChar, r4.take 32)
        else Option.none
    else Option.none

/-- `DB_STR_LEN = 256`. -/
def DB_STR_LEN : Nat := 256

/-- A row of the `firmware_files` table (`FirmwareFile` model: primary key
`name`, columns `lib_version`, `hash`, `firmware`). -/
structure FirmwareFile where
  name : String
  lib_version : String
  hash : String
  firmware : Bytes
deriving DecidableEq, Repr

/-- The derived `version` property: `f"{name}-{lib_version}-{hash}"`. -/
def FirmwareFile.version (f : FirmwareFile) : String :=
  f.name ++ "-" ++ f.lib_version ++ "-" ++ f.hash

/-- `FirmwareFile.from_file(fname, fdata)`: parse the filename with
`FW_FILE_RE`; on a non-match raise `AttributeError("file name is
invalid.")`; otherwise build the row from groups 1, 2 and 4 and the raw
bytes.  The hash is stored exactly as captured (no case change). -/
def FirmwareFile.from_file (fname : String) (fdata : Bytes) : Except PyError FirmwareFile :=
  match fwMatchList fname.toList with
  | Option.none => Except.error (PyError.attributeError "file name is invalid.")
  | some (n, v, h) =>
    Except.ok { name := String.mk n, lib_version := String.mk v, hash := String.mk h,
                firmware := fdata }

/-- A row of the `nodes` table (`MonitorNode` model).  The source always
supplies `name` on creation; `last_ip` is nullable.  Node ids are the raw
payload values (integers in every exercised case). -/
structure MonitorNode where
  id : PyVal
  name : String
  last_ip : Option String
deriving DecidableEq, Repr

/-- The `StatsInstance` column values built by `from_dict` (everything but
the autoincremented surrogate key).  Sensor readings are stored exactly as
supplied, without range or type validation. -/
structure StatsInstance where
  id : PyVal
  timestamp : PyDatetime
  high_temp : PyVal
  low_temp : PyVal
  air_temp : PyVal
  humidity : PyVal
  digital_1 : PyVal
  digital_2 : PyVal
  analog : PyVal
deriving DecidableEq, Repr

/-- A persisted row of `stats_entries`: the dedicated autoincrement
surrogate primary key `entry_id` plus the column values. -/
structure StatsRow where
  entry_id : Nat
  inst : StatsInstance
deriving DecidableEq, Repr

/-- The database state: the three tables plus the autoincrement counter
feeding `stats_entries.entry_id`. -/
structure DBState where
  nodes : List MonitorNode
  firmware_files : List FirmwareFile
  stats_entries : List StatsRow
  next_entry_id : Nat
deriving DecidableEq, Repr

/-- The empty database (`Base.metadata.create_all` on a fresh store). -/
def DBState.empty : DBState :=
  { nodes := [], firmware_files := [], stats_entries := [], next_entry_id := 0 }

/-- The nine payload keys required by `StatsInstance.from_dict`, in the
order the source checks them. -/
def REQUIRED_KEYS : List String :=
  ["id", "timestamp", "high_temp", "low_temp", "air_temp", "humidity",
   "digital_1", "digital_2", "analog"]

/-- The timestamp branch of `from_dict`: an already-typed datetime is kept
as-is; anything else is passed to `fromisoformat(...).astimezone(utc)`
(raising `TypeError` on a non-string and `ValueError` on a malformed
string). -/
def toStoredTimestamp (localOff : Int) : PyVal → Except PyError PyDatetime
  | PyVal.dt d => Except.ok d
  | PyVal.str s =>
    match fromisoformat s with
    | some d => Except.ok (PyDatetime.astimezoneUtc localOff d)
    | Option.none => Except.error (PyError.valueError ("Invalid isoformat string: " ++ s))
  | _ => Except.error (PyError.typeError "fromisoformat: argument must be str")

/-- `StatsInstance.from_dict(stats)`: check the nine required keys in source
order, raising `AttributeError("'<key>' not in dict.")` at the first
missing one; then resolve the timestamp; then build the instance with the
raw payload values. -/
def StatsInstance.from_dict (localOff : Int) (stats : Payload) : Except PyError StatsInstance :=
  match dictGet stats "id" with
  | Option.none => Except.error (PyError.attributeError "'id' not in dict.")
  | some vId =>
  match dictGet stats "timestamp" with
  | Option.none => Except.error (PyError.attributeError "'timestamp' not in dict.")
  | some vTs =>
  match dictGet stats "high_temp" with
  | Option.none => Except.error (PyError.attributeError "'high_temp' not in dict.")
  | some vHt =>
  match dictGet stats "low_temp" with
  | Option.none => Except.error (PyError.attributeError "'low_temp' not in dict.")
  | some vLt =>
  match dictGet stats "air_temp" with
  | Option.none => Except.error (PyError.attributeError "'air_temp' not in dict.")
  | some vAt =>
  match dictGet stats "humidity" with
  | Option.none => Except.error (PyError.attributeError "'humidity' not in dict.")
  | some vHu =>
  match dictGet stats "digital_1" with
  | Option.none => Except.error (PyError.attributeError "'digital_1' not in dict.")
  | some vD1 =>
  match dictGet stats "digital_2" with
  | Option.none => Except.error (PyError.attributeError "'digital_2' not in dict.")
  | some vD2 =>
  match dictGet stats "analog" with
  | Option.none => Except.error (PyError.attributeError "'analog' not in dict.")
  | some vAn =>
  match toStoredTimestamp localOff vTs with
  | Except.error e => Except.error e
  | Except.ok ts =>
    Except.ok { id := vId, timestamp := ts, high_temp := vHt, low_temp := vLt,
                air_temp := vAt, humidity := vHu, digital_1 := vD1, digital_2 := vD2,
                analog := vAn }

/-! ## DataInterface operations

Each public operation opens one session/transaction.  SQLAlchemy's
`one_or_none` / attribute assignment act on the first (and, under the
primary-key and upsert discipline, only) row matching the filter, which the
`find...`/`...First` helpers below reproduce.  A raised exception leaves the
`with Session` block before `commit()`, rolling the transaction back. -/

/-- `session.query(FirmwareFile).filter(FirmwareFile.name == n).one_or_none()`. -/
def findRow : List FirmwareFile → String → Option FirmwareFile
  | [], _ => Option.none
  | f :: rest, n => if f.name = n then some f else findRow rest n

/-- `session.query(MonitorNode).filter(MonitorNode.id == i).one_or_none()`. -/
def findNode : List MonitorNode → PyVal → Option MonitorNode
  | [], _ => Option.none
  | nd :: rest, i => if nd.id = i then some nd else findNode rest i

/-- Assignment `nodeInfo.last_ip = ip` on the queried row object. -/
def setIpFirst : List MonitorNode → PyVal → String → List MonitorNode
  | [], _, _ => []
  | nd :: rest, i, addr =>
    if nd.id = i then { nd with last_ip := some addr } :: rest
    else nd :: setIpFirst rest i addr

/-- Assignment `nodeInfo.name = name` on the queried row object. -/
def setNameFirst : List MonitorNode → PyVal → String → List MonitorNode
  | [], _, _ => []
  | nd :: rest, i, newName =>
    if nd.id = i then { nd with name := newName } :: rest
    else nd :: setNameFirst rest i newName

/-- The in-place overwrite of `add_firmware`'s update branch: assign
`lib_version`, `hash` and `firmware` from the new entry onto the stored
row (its `name` — the primary key — is untouched). -/
def updRow (f fw : FirmwareFile) : FirmwareFile :=
  { f with lib_version := fw.lib_version, hash := fw.hash, firmware := fw.firmware }

/-- The in-place update branch of `add_firmware`: on the row found for
`fw.name`, compare versions once and overwrite `lib_version`, `hash`,
`firmware` when they differ (`elif fw_db.version != fw_new.version`). -/
def updateFirstRow : List FirmwareFile → FirmwareFile → List FirmwareFile
  | [], _ => []
  | f :: rest, fw =>
    if f.name = fw.name then
      (if f.version = fw.version then f else updRow f fw) :: rest
    else f :: updateFirstRow rest fw

/-- One loop iteration of `add_firmware` after a successful parse: insert
the new row when the name is unseen, otherwise reconcile in place. -/
def mergeFw (files : List FirmwareFile) (fw : FirmwareFile) : List FirmwareFile :=
  match findRow files fw.name with
  | Option.none => files ++ [fw]
  | some _ => updateFirstRow files fw

/-- The `for fname in archive.namelist()` loop of `add_firmware`, acting on
the session's view of the `firmware_files` table.  The first filename that
fails to parse raises, aborting the loop before `commit()`. -/
def addFirmwareLoop (files : List FirmwareFile) :
    List (String × Bytes) → Except PyError (List FirmwareFile)
  | [] => Except.ok files
  | e :: rest =>
    match FirmwareFile.from_file e.1 e.2 with
    | Except.error err => Except.error err
    | Except.ok fw => addFirmwareLoop (mergeFw files fw) rest

/-- `DataInterface.add_firmware(archive)` where the archive is the ordered
list of `(filename, bytes)` entries.  An `ok` result is the committed state;
an `error` result means the exception propagated and the transaction was
rolled back. -/
def DataInterface.add_firmware (db : DBState) (archive : List (String × Bytes)) :
    Except PyError DBState :=
  match addFirmwareLoop db.firmware_files archive with
  | Except.ok files => Except.ok { db with firmware_files := files }
  | Except.error e => Except.error e

/-- The auto-creation step of `ingest`'s node upsert: when no row carries
the id, add one named `str(stats["id"])` with `last_ip` unset. -/
def autoCreate (nodes : List MonitorNode) (sid : PyVal) : List MonitorNode :=
  match findNode nodes sid with
  | some _ => nodes
  | Option.none => nodes ++ [{ id := sid, name := PyVal.pyStr sid, last_ip := Option.none }]

/-- The node upsert performed inside `ingest`'s transaction: query the node,
auto-create it when absent, and when a source ip is supplied overwrite the
row's `last_ip` unconditionally. -/
def upsertSeen (nodes : List MonitorNode) (sid : PyVal) (ip : Option String) :
    List MonitorNode :=
  match ip with
  | some addr => setIpFirst (autoCreate nodes sid) sid addr
  | Option.none => autoCreate nodes sid

/-- `DataInterface.ingest(stats, ip)`: build the instance via `from_dict`
(raising before any database access on a bad payload), then in one
transaction upsert the node and append the telemetry row under a fresh
surrogate key. -/
def DataInterface.ingest (localOff : Int) (db : DBState) (stats : Payload)
    (ip : Option String) : Except PyError DBState :=
  match StatsInstance.from_dict localOff stats with
  | Except.error e => Except.error e
  | Except.ok inst =>
    match dictGet stats "id" with
    | Option.none => Except.error (PyError.keyError "id")
    | some sid =>
      Except.ok { db with
        nodes := upsertSeen db.nodes sid ip
        stats_entries := db.stats_entries ++ [{ entry_id := db.next_entry_id, inst := inst }]
        next_entry_id := db.next_entry_id + 1 }

/-- `DataInterface.get_firmware(fw_name)` (metadata projection omitted:
the row itself is returned). -/
def DataInterface.get_firmware (db : DBState) (fw_name : String) : Option FirmwareFile :=
  findRow db.firmware_files fw_name

/-- `DataInterface.get_firmware_names()`. -/
def DataInterface.get_firmware_names (db : DBState) : List String :=
  db.firmware_files.map FirmwareFile.name

/-- `DataInterface.set_node_name(nodeId, name)`: reject names of length
`>= DB_STR_LEN` with `ValueError` before touching the database; otherwise
create the node (with `last_ip` unset) or update its name, returning the
resulting snapshot. -/
def DataInterface.set_node_name (db : DBState) (nodeId : PyVal) (name : String) :
    Except PyError (DBState × MonitorNode) :=
  if name.length ≥ DB_STR_LEN then
    Except.error (PyError.valueError ("The name " ++ name ++ " is longer than 256 characters."))
  else
    match findNode db.nodes nodeId with
    | Option.none =>
      let node : MonitorNode := { id := nodeId, name := name, last_ip := Option.none }
      Except.ok ({ db with nodes := db.nodes ++ [node] }, node)
    | some nd =>
      Except.ok ({ db with nodes := setNameFirst db.nodes nodeId name },
                 { nd with name := name })

/-- Post-state of an `ingest` call under transactional semantics: a raising
call rolls back, leaving the database unchanged. -/
def applyIngest (localOff : Int) (db : DBState) (stats : Payload) (ip : Option String) : DBState :=
  match DataInterface.ingest localOff db stats ip with
  | Except.ok db' => db'
  | Except.error _ => db

/-- Post-state of an `add_firmware` call under transactional semantics. -/
def applyAddFirmware (db : DBState) (archive : List (String × Bytes)) : DBState :=
  match DataInterface.add_firmware db archive with
  | Except.ok db' => db'
  | Except.error _ => db

/-- Post-state of a `set_node_name` call under transactional semantics. -/
def applySetNodeName (db : DBState) (nodeId : PyVal) (name : String) : DBState :=
  match DataInterface.set_node_name db nodeId name with
  | Except.ok r => r.1
  | Except.error _ => db

/-! ## Declarative reading of the filename pattern

`VersionLang` transcribes `(\d+\.)*\d+` and `FwNameMatch` the whole
pattern `^(\w+)-((\d+\.)*\d+)-([a-fA-F0-9]{32})\.bin`, anchored at the
start with arbitrary trailing characters, as the regex (compiled without a
`$` anchor and applied with `re.match`) accepts. -/

/-- The language of `(\d+\.)*\d+`: one or more nonempty digit groups
separated by single dots. -/
inductive VersionLang : List Char → Prop where
  | last (d : List Char) : d ≠ [] → (∀ c ∈ d, c.isDigit = true) → VersionLang d
  | cons (d : List Char) (rest : List Char) : d ≠ [] → (∀ c ∈ d, c.isDigit = true) →
      VersionLang rest → VersionLang (d ++ '.' :: rest)

/-- A character list is accepted by `FW_FILE_RE.match`: it decomposes as
`<word+>-<version>-<32 hex>.bin<anything>`. -/
def FwNameMatch (l : List Char) : Prop :=
  ∃ name ver hash rest,
    l = name ++ '-' :: (ver ++ '-' :: (hash ++ '.' :: 'b' :: 'i' :: 'n' :: rest)) ∧
    name ≠ [] ∧ (∀ c ∈ name, isWordChar c = true) ∧
    VersionLang ver ∧
    hash.length = 32 ∧ (∀ c ∈ hash, isHexDigitChar c = true)

/-! ## Helper lemmas about `from_dict` -/

/-- If any of the nine required keys is absent, `from_dict` raises
`AttributeError` (the first missing key in source order determines the
message). -/
theorem from_dict_missing_key (localOff : Int) (stats : Payload)
    (h : ∃ k ∈ REQUIRED_KEYS, dictGet stats k = Option.none) :
    ∃ msg, StatsInstance.from_dict localOff stats =
      Except.error (PyError.attributeError msg) := by
  obtain ⟨k, hkmem, hk⟩ := h
  unfold StatsInstance.from_dict
  cases h1 : dictGet stats "id" with
  | none => exact ⟨_, rfl⟩
  | some v1 =>
  cases h2 : dictGet stats "timestamp" with
  | none => exact ⟨_, rfl⟩
  | some v2 =>
  cases h3 : dictGet stats "high_temp" with
  | none => exact ⟨_, rfl⟩
  | some v3 =>
  cases h4 : dictGet stats "low_temp" with
  | none => exact ⟨_, rfl⟩
  | some v4 =>
  cases h5 : dictGet stats "air_temp" with
  | none => exact ⟨_, rfl⟩
  | some v5 =>
  cases h6 : dictGet stats "humidity" with
  | none => exact ⟨_, rfl⟩
  | some v6 =>
  cases h7 : dictGet stats "digital_1" with
  | none => exact ⟨_, rfl⟩
  | some v7 =>
  cases h8 : dictGet stats "digital_2" with
  | none => exact ⟨_, rfl⟩
  | some v8 =>
  cases h9 : dictGet stats "analog" with
  | none => exact ⟨_, rfl⟩
  | some v9 =>
    exfalso
    simp only [REQUIRED_KEYS, List.mem_cons, List.not_mem_nil, or_false] at hkmem
    rcases hkmem with rfl | rfl | rfl | rfl | rfl | rfl | rfl | rfl | rfl <;> simp_all

/-- When the nine required keys are present and the timestamp value
resolves, `from_dict` succeeds and stores the payload values verbatim. -/
theorem from_dict_ok_of_keys (localOff : Int) (stats : Payload)
    (vId vTs vHt vLt vAt vHu vD1 vD2 vAn : PyVal) (ts : PyDatetime)
    (h1 : dictGet stats "id" = some vId)
    (h2 : dictGet stats "timestamp" = some vTs)
    (h3 : dictGet stats "high_temp" = some vHt)
    (h4 : dictGet stats "low_temp" = some vLt)
    (h5 : dictGet stats "air_temp" = some vAt)
    (h6 : dictGet stats "humidity" = some vHu)
    (h7 : dictGet stats "digital_1" = some vD1)
    (h8 : dictGet stats "digital_2" = some vD2)
    (h9 : dictGet stats "analog" = some vAn)
    (hts : toStoredTimestamp localOff vTs = Except.ok ts) :
    StatsInstance.from_dict localOff stats =
      Except.ok { id := vId, timestamp := ts, high_temp := vHt, low_temp := vLt,
                  air_temp := vAt, humidity := vHu, digital_1 := vD1, digital_2 := vD2,
                  analog := vAn } := by
  unfold StatsInstance.from_dict
  simp only [h1, h2, h3, h4, h5, h6, h7, h8, h9, hts]

/-- Inversion of a successful `from_dict`: each stored column equals the
payload value at its key, and the stored timestamp is whatever
`toStoredTimestamp` produced from the payload's timestamp value. -/
theorem from_dict_ok_elim (localOff : Int) (stats : Payload) (inst : StatsInstance)
    (h : StatsInstance.from_dict localOff stats = Except.ok inst) :
    dictGet stats "id" = some inst.id ∧
    ∃ vTs, dictGet stats "timestamp" = some vTs ∧
      toStoredTimestamp localOff vTs = Except.ok inst.timestamp := by
  unfold StatsInstance.from_dict at h
  cases h1 : dictGet stats "id" with
  | none => rw [h1] at h; exact absurd h (by simp)
  | some v1 =>
  rw [h1] at h
  cases h2 : dictGet stats "timestamp" with
  | none => rw [h2] at h; exact absurd h (by simp)
  | some v2 =>
  rw [h2] at h
  cases h3 : dictGet stats "high_temp" with
  | none => rw [h3] at h; exact absurd h (by simp)
  | some v3 =>
  rw [h3] at h
  cases h4 : dictGet stats "low_temp" with
  | none => rw [h4] at h; exact absurd h (by simp)
  | some v4 =>
  rw [h4] at h
  cases h5 : dictGet stats "air_temp" with
  | none => rw [h5] at h; exact absurd h (by simp)
  | some v5 =>
  rw [h5] at h
  cases h6 : dictGet stats "humidity" with
  | none => rw [h6] at h; exact absurd h (by simp)
  | some v6 =>
  rw [h6] at h
  cases h7 : dictGet stats "digital_1" with
  | none => rw [h7] at h; exact absurd h (by simp)
  | some v7 =>
  rw [h7] at h
  cases h8 : dictGet stats "digital_2" with
  | none => rw [h8] at h; exact absurd h (by simp)
  | some v8 =>
  rw [h8] at h
  cases h9 : dictGet stats "analog" with
  | none => rw [h9] at h; exact absurd h (by simp)
  | some v9 =>
  rw [h9] at h
  cases hts : toStoredTimestamp localOff v2 with
  | error e =>
    simp only [hts] at h
    exact absurd h (by simp)
  | ok ts =>
    simp only [hts, Except.ok.injEq] at h
    subst h
    exact ⟨rfl, v2, rfl, hts⟩

/-! ## Concrete payloads used by witnesses -/

/-- The spec's concrete telemetry example payload (§8). -/
def samplePayload : Payload :=
  [("id", PyVal.int 12345), ("timestamp", PyVal.str "2020-03-20T14:30:43"),
   ("high_temp", PyVal.float (49/2)), ("low_temp", PyVal.float 20),
   ("air_temp", PyVal.float (556/25)), ("humidity", PyVal.int 72),
   ("digital_1", PyVal.int 0), ("digital_2", PyVal.int 1), ("analog", PyVal.int 135)]

/-- The sample payload with the required key `digital_1` deleted. -/
def payloadMissingDigital1 : Payload :=
  [("id", PyVal.int 12345), ("timestamp", PyVal.str "2020-03-20T14:30:43"),
   ("high_temp", PyVal.float (49/2)), ("low_temp", PyVal.float 20),
   ("air_temp", PyVal.float (556/25)), ("humidity", PyVal.int 72),
   ("digital_2", PyVal.int 1), ("analog", PyVal.int 135)]

/-- A payload with all nine keys, a typed timestamp, and null values for the
four float fields. -/
def payloadNullFloats : Payload :=
  [("id", PyVal.int 7), ("timestamp", PyVal.dt { wallSeconds := 100, utcOffsetSeconds := some 0 }),
   ("high_temp", PyVal.none), ("low_temp", PyVal.none),
   ("air_temp", PyVal.none), ("humidity", PyVal.none),
   ("digital_1", PyVal.int 0), ("digital_2", PyVal.int 1), ("analog", PyVal.int 3)]

/-- C2: for every payload missing at least one of the nine required keys,
`ingest` fails with the validation error (Python `AttributeError`,
translated to HTTP 400) and no telemetry row is added; a payload carrying
all nine keys — the four float fields possibly null — passes this key
validation and `from_dict` succeeds. -/
theorem C2_ingest_missing_key_validation :
    (∀ (localOff : Int) (db : DBState) (stats : Payload) (ip : Option String),
      (∃ k ∈ REQUIRED_KEYS, dictGet stats k = Option.none) →
      (∃ msg, DataInterface.ingest localOff db stats ip =
        Except.error (PyError.attributeError msg)) ∧
      (applyIngest localOff db stats ip).stats_entries = db.stats_entries) ∧
    (∀ (localOff : Int) (stats : Payload) (vId : PyVal) (d : PyDatetime)
       (vHt vLt vAt vHu vD1 vD2 vAn : PyVal),
      dictGet stats "id" = some vId →
      dictGet stats "timestamp" = some (PyVal.dt d) →
      dictGet stats "high_temp" = some vHt →
      dictGet stats "low_temp" = some vLt →
      dictGet stats "air_temp" = some vAt →
      dictGet stats "humidity" = some vHu →
      dictGet stats "digital_1" = some vD1 →
      dictGet stats "digital_2" = some vD2 →
      dictGet stats "analog" = some vAn →
      ∃ inst, StatsInstance.from_dict localOff stats = Except.ok inst) := by
  constructor
  · intro localOff db stats ip hmiss
    obtain ⟨msg, hfd⟩ := from_dict_missing_key localOff stats hmiss
    refine ⟨⟨msg, ?_⟩, ?_⟩
    · unfold DataInterface.ingest
      simp only [hfd]
    · unfold applyIngest DataInterface.ingest
      simp only [hfd]
  · intro localOff stats vId d vHt vLt vAt vHu vD1 vD2 vAn h1 h2 h3 h4 h5 h6 h7 h8 h9
    exact ⟨_, from_dict_ok_of_keys localOff stats vId (PyVal.dt d) vHt vLt vAt vHu vD1 vD2 vAn d
      h1 h2 h3 h4 h5 h6 h7 h8 h9 rfl⟩

/-- Witness for C2 at concrete inputs: a payload missing `digital_1` makes
`ingest` raise, and the all-keys payload with null floats passes
`from_dict`. -/
theorem C2_ingest_missing_key_validation_witness :
    (∃ msg, DataInterface.ingest 0 DBState.empty payloadMissingDigital1 Option.none =
      Except.error (PyError.attributeError msg)) ∧
    (∃ inst, StatsInstance.from_dict 0 payloadNullFloats = Except.ok inst) := by
  constructor
  · exact (C2_ingest_missing_key_validation.1 0 DBState.empty payloadMissingDigital1
      Option.none (by decide)).1
  · exact C2_ingest_missing_key_validation.2 0 payloadNullFloats (PyVal.int 7)
      { wallSeconds := 100, utcOffsetSeconds := some 0 }
      PyVal.none PyVal.none PyVal.none PyVal.none (PyVal.int 0) (PyVal.int 1) (PyVal.int 3)
      rfl rfl rfl rfl rfl rfl rfl rfl rfl

/-- C10: when `ingest` fails the key validation, the whole database —
the node table included — is untouched: `from_dict` raises before the
session is opened, so no node is auto-created and no `last_ip` is
updated. -/
theorem C10_ingest_failure_leaves_nodes_untouched (localOff : Int) (db : DBState)
    (stats : Payload) (ip : Option String)
    (hmiss : ∃ k ∈ REQUIRED_KEYS, dictGet stats k = Option.none) :
    applyIngest localOff db stats ip = db ∧
    (applyIngest localOff db stats ip).nodes = db.nodes ∧
    ∃ msg, DataInterface.ingest localOff db stats ip =
      Except.error (PyError.attributeError msg) := by
  obtain ⟨msg, hfd⟩ := from_dict_missing_key localOff stats hmiss
  have hstate : applyIngest localOff db stats ip = db := by
    unfold applyIngest DataInterface.ingest
    simp only [hfd]
  refine ⟨hstate, by rw [hstate], msg, ?_⟩
  unfold DataInterface.ingest
  simp only [hfd]

/-- Witness for C10: a payload missing `digital_1`, ingested with a source
ip against a database holding one node, changes nothing. -/
theorem C10_ingest_failure_leaves_nodes_untouched_witness :
    applyIngest 0 { nodes := [{ id := PyVal.int 12345, name := "12345", last_ip := Option.none }],
                    firmware_files := [], stats_entries := [], next_entry_id := 5 }
      payloadMissingDigital1 (some "10.3.0.1") =
    { nodes := [{ id := PyVal.int 12345, name := "12345", last_ip := Option.none }],
      firmware_files := [], stats_entries := [], next_entry_id := 5 } :=
  (C10_ingest_failure_leaves_nodes_untouched 0
    { nodes := [{ id := PyVal.int 12345, name := "12345", last_ip := Option.none }],
      firmware_files := [], stats_entries := [], next_entry_id := 5 }
    payloadMissingDigital1 (some "10.3.0.1") (by decide)).1


/-! ## Helper lemmas about nodes and `ingest` -/

/-- `findNode` returns `none` exactly when no row has the id. -/
theorem findNode_eq_none_iff (nodes : List MonitorNode) (i : PyVal) :
    findNode nodes i = Option.none ↔ ∀ nd ∈ nodes, nd.id ≠ i := by
  induction nodes with
  | nil => simp [findNode]
  | cons nd rest ih =>
    by_cases h : nd.id = i
    · simp [findNode, h]
    · simp [findNode, h, ih]

/-- Setting the ip on a freshly appended node touches only that node when
no earlier row carries the id. -/
theorem setIpFirst_append_new (nodes : List MonitorNode) (sid : PyVal) (nm : String)
    (ip0 : Option String) (addr : String) (h : ∀ nd ∈ nodes, nd.id ≠ sid) :
    setIpFirst (nodes ++ [{ id := sid, name := nm, last_ip := ip0 }]) sid addr =
      nodes ++ [{ id := sid, name := nm, last_ip := some addr }] := by
  induction nodes with
  | nil => simp [setIpFirst]
  | cons nd rest ih =>
    have hne : nd.id ≠ sid := h nd (List.mem_cons_self nd rest)
    have ih' := ih (fun x hx => h x (List.mem_cons_of_mem nd hx))
    simp only [List.cons_append, setIpFirst, if_neg hne, List.append_eq] at ih' ⊢
    rw [ih']

/-- `setIpFirst` rewrites the queried row's `last_ip` and nothing else
visible through `findNode`. -/
theorem findNode_setIpFirst (nodes : List MonitorNode) (sid : PyVal) (addr : String) :
    findNode (setIpFirst nodes sid addr) sid =
      (findNode nodes sid).map (fun nd => { nd with last_ip := some addr }) := by
  induction nodes with
  | nil => simp [findNode, setIpFirst]
  | cons nd rest ih =>
    by_cases h : nd.id = sid
    · simp [setIpFirst, findNode, h]
    · simp [setIpFirst, findNode, h, ih]

/-- The node upsert for an unseen id appends exactly one node, named by
`str(id)`, carrying the supplied ip. -/
theorem upsertSeen_new (nodes : List MonitorNode) (sid : PyVal) (ip : Option String)
    (hnew : findNode nodes sid = Option.none) :
    upsertSeen nodes sid ip =
      nodes ++ [{ id := sid, name := PyVal.pyStr sid, last_ip := ip }] := by
  have hall := (findNode_eq_none_iff nodes sid).mp hnew
  cases ip with
  | none =>
    unfold upsertSeen autoCreate
    rw [hnew]
  | some addr =>
    unfold upsertSeen autoCreate
    rw [hnew]
    exact setIpFirst_append_new nodes sid (PyVal.pyStr sid) Option.none addr hall

/-- The node upsert for a known id with a supplied ip only rewrites the
queried row's `last_ip`. -/
theorem upsertSeen_known_ip (nodes : List MonitorNode) (sid : PyVal) (addr : String)
    (nd0 : MonitorNode) (hfound : findNode nodes sid = some nd0) :
    upsertSeen nodes sid (some addr) = setIpFirst nodes sid addr ∧
    findNode (upsertSeen nodes sid (some addr)) sid =
      some { nd0 with last_ip := some addr } := by
  have h1 : upsertSeen nodes sid (some addr) = setIpFirst nodes sid addr := by
    unfold upsertSeen autoCreate
    rw [hfound]
  refine ⟨h1, ?_⟩
  rw [h1, findNode_setIpFirst, hfound]
  rfl

/-- A successful `ingest` produces exactly the state built from the parsed
instance and the node upsert. -/
theorem ingest_ok_elim (localOff : Int) (db : DBState) (stats : Payload)
    (ip : Option String) (db' : DBState)
    (h : DataInterface.ingest localOff db stats ip = Except.ok db') :
    ∃ inst sid, StatsInstance.from_dict localOff stats = Except.ok inst ∧
      dictGet stats "id" = some sid ∧
      db'.nodes = upsertSeen db.nodes sid ip ∧
      db'.stats_entries = db.stats_entries ++ [{ entry_id := db.next_entry_id, inst := inst }] ∧
      db'.next_entry_id = db.next_entry_id + 1 ∧
      db'.firmware_files = db.firmware_files := by
  unfold DataInterface.ingest at h
  cases hfd : StatsInstance.from_dict localOff stats with
  | error e => rw [hfd] at h; exact absurd h (by simp)
  | ok inst =>
    rw [hfd] at h
    cases hid : dictGet stats "id" with
    | none => simp only [hid] at h; exact absurd h (by simp)
    | some sid =>
      simp only [hid, Except.ok.injEq] at h
      subst h
      exact ⟨inst, sid, rfl, rfl, rfl, rfl, rfl, rfl⟩

/-- A successful `from_dict` and an id lookup determine `ingest`'s result
state. -/
theorem ingest_ok_intro (localOff : Int) (db : DBState) (stats : Payload)
    (ip : Option String) (inst : StatsInstance) (sid : PyVal)
    (hfd : StatsInstance.from_dict localOff stats = Except.ok inst)
    (hid : dictGet stats "id" = some sid) :
    DataInterface.ingest localOff db stats ip = Except.ok { db with
      nodes := upsertSeen db.nodes sid ip
      stats_entries := db.stats_entries ++ [{ entry_id := db.next_entry_id, inst := inst }]
      next_entry_id := db.next_entry_id + 1 } := by
  unfold DataInterface.ingest
  rw [hfd, hid]

/-- C5: ingesting a valid payload for a never-seen integer id creates
exactly one node whose name is the decimal string of the id and whose
`last_ip` equals the supplied source ip (absent when none is supplied);
for an already-known id with a supplied ip, no node is created and the
queried row's `last_ip` is overwritten unconditionally. -/
theorem C5_ingest_node_autocreation :
    (∀ (localOff : Int) (db : DBState) (stats : Payload) (ip : Option String)
       (inst : StatsInstance) (n : Int),
      StatsInstance.from_dict localOff stats = Except.ok inst →
      dictGet stats "id" = some (PyVal.int n) →
      findNode db.nodes (PyVal.int n) = Option.none →
      ∃ db', DataInterface.ingest localOff db stats ip = Except.ok db' ∧
        db'.nodes = db.nodes ++
          [{ id := PyVal.int n, name := toString n, last_ip := ip }]) ∧
    (∀ (localOff : Int) (db : DBState) (stats : Payload) (addr : String)
       (inst : StatsInstance) (sid : PyVal) (nd0 : MonitorNode),
      StatsInstance.from_dict localOff stats = Except.ok inst →
      dictGet stats "id" = some sid →
      findNode db.nodes sid = some nd0 →
      ∃ db', DataInterface.ingest localOff db stats (some addr) = Except.ok db' ∧
        db'.nodes = setIpFirst db.nodes sid addr ∧
        findNode db'.nodes sid = some { nd0 with last_ip := some addr }) := by
  constructor
  · intro localOff db stats ip inst n hfd hid hnew
    refine ⟨_, ingest_ok_intro localOff db stats ip inst (PyVal.int n) hfd hid, ?_⟩
    show upsertSeen db.nodes (PyVal.int n) ip = _
    rw [upsertSeen_new db.nodes (PyVal.int n) ip hnew]
    rfl
  · intro localOff db stats addr inst sid nd0 hfd hid hfound
    obtain ⟨h1, h2⟩ := upsertSeen_known_ip db.nodes sid addr nd0 hfound
    exact ⟨_, ingest_ok_intro localOff db stats (some addr) inst sid hfd hid, h1, h2⟩

/-- Witness for C5: the spec's §8 scenario — ingest the sample payload for
id 12345 with no source ip into an empty database, and a payload for the
known id 23456 with source ip 10.3.0.1. -/
theorem C5_ingest_node_autocreation_witness :
    (∃ db', DataInterface.ingest 0 DBState.empty samplePayload Option.none = Except.ok db' ∧
      db'.nodes = [{ id := PyVal.int 12345, name := "12345", last_ip := Option.none }]) ∧
    (∃ db', DataInterface.ingest 0
        { nodes := [{ id := PyVal.int 23456, name := "23456", last_ip := Option.none }],
          firmware_files := [], stats_entries := [], next_entry_id := 1 }
        (("id", PyVal.int 23456) :: samplePayload.drop 1) (some "10.3.0.1") = Except.ok db' ∧
      db'.nodes = setIpFirst
        [{ id := PyVal.int 23456, name := "23456", last_ip := Option.none }]
        (PyVal.int 23456) "10.3.0.1" ∧
      findNode db'.nodes (PyVal.int 23456) =
        some { id := PyVal.int 23456, name := "23456", last_ip := some "10.3.0.1" }) := by
  constructor
  · exact C5_ingest_node_autocreation.1 0 DBState.empty samplePayload Option.none
      { id := PyVal.int 12345,
        timestamp := { wallSeconds := 63720311443, utcOffsetSeconds := some 0 },
        high_temp := PyVal.float (49/2), low_temp := PyVal.float 20,
        air_temp := PyVal.float (556/25), humidity := PyVal.int 72,
        digital_1 := PyVal.int 0, digital_2 := PyVal.int 1, analog := PyVal.int 135 }
      12345 rfl rfl rfl
  · exact C5_ingest_node_autocreation.2 0
      { nodes := [{ id := PyVal.int 23456, name := "23456", last_ip := Option.none }],
        firmware_files := [], stats_entries := [], next_entry_id := 1 }
      (("id", PyVal.int 23456) :: samplePayload.drop 1) "10.3.0.1"
      { id := PyVal.int 23456,
        timestamp := { wallSeconds := 63720311443, utcOffsetSeconds := some 0 },
        high_temp := PyVal.float (49/2), low_temp := PyVal.float 20,
        air_temp := PyVal.float (556/25), humidity := PyVal.int 72,
        digital_1 := PyVal.int 0, digital_2 := PyVal.int 1, analog := PyVal.int 135 }
      (PyVal.int 23456)
      { id := PyVal.int 23456, name := "23456", last_ip := Option.none }
      rfl rfl rfl

/-- `setNameFirst` rewrites the queried row's name and nothing else visible
through `findNode`. -/
theorem findNode_setNameFirst (nodes : List MonitorNode) (i : PyVal) (nm : String) :
    findNode (setNameFirst nodes i nm) i =
      (findNode nodes i).map (fun nd => { nd with name := nm }) := by
  induction nodes with
  | nil => simp [findNode, setNameFirst]
  | cons nd rest ih =>
    by_cases h : nd.id = i
    · simp [setNameFirst, findNode, h]
    · simp [setNameFirst, findNode, h, ih]

/-- C7: `set_node_name` with a name of length ≥ 256 fails with the
validation error (`ValueError`) and touches no row; with a shorter name it
creates the node (with `last_ip` unset) when absent, or updates only its
name when present, returning the resulting snapshot. -/
theorem C7_set_node_name :
    (∀ (db : DBState) (nodeId : PyVal) (name : String),
      name.length ≥ 256 →
      DataInterface.set_node_name db nodeId name =
        Except.error (PyError.valueError
          ("The name " ++ name ++ " is longer than 256 characters.")) ∧
      applySetNodeName db nodeId name = db) ∧
    (∀ (db : DBState) (nodeId : PyVal) (name : String),
      name.length < 256 →
      findNode db.nodes nodeId = Option.none →
      DataInterface.set_node_name db nodeId name =
        Except.ok ({ db with nodes := db.nodes ++
            [{ id := nodeId, name := name, last_ip := Option.none }] },
          { id := nodeId, name := name, last_ip := Option.none })) ∧
    (∀ (db : DBState) (nodeId : PyVal) (name : String) (nd0 : MonitorNode),
      name.length < 256 →
      findNode db.nodes nodeId = some nd0 →
      DataInterface.set_node_name db nodeId name =
        Except.ok ({ db with nodes := setNameFirst db.nodes nodeId name },
          { nd0 with name := name }) ∧
      findNode (applySetNodeName db nodeId name).nodes nodeId =
        some { nd0 with name := name }) := by
  refine ⟨?_, ?_, ?_⟩
  · intro db nodeId name hlen
    have hcond : name.length ≥ DB_STR_LEN := hlen
    constructor
    · unfold DataInterface.set_node_name
      rw [if_pos hcond]
    · unfold applySetNodeName DataInterface.set_node_name
      rw [if_pos hcond]
  · intro db nodeId name hlen habs
    have hcond : ¬ name.length ≥ DB_STR_LEN := by
      simp only [DB_STR_LEN]; omega
    unfold DataInterface.set_node_name
    rw [if_neg hcond, habs]
  · intro db nodeId name nd0 hlen hfound
    have hcond : ¬ name.length ≥ DB_STR_LEN := by
      simp only [DB_STR_LEN]; omega
    have hmain : DataInterface.set_node_name db nodeId name =
        Except.ok ({ db with nodes := setNameFirst db.nodes nodeId name },
          { nd0 with name := name }) := by
      unfold DataInterface.set_node_name
      rw [if_neg hcond, hfound]
    refine ⟨hmain, ?_⟩
    have hstate : applySetNodeName db nodeId name =
        { db with nodes := setNameFirst db.nodes nodeId name } := by
      unfold applySetNodeName
      rw [hmain]
    rw [hstate]
    show findNode (setNameFirst db.nodes nodeId name) nodeId = _
    rw [findNode_setNameFirst, hfound]
    rfl

set_option maxRecDepth 2048 in
/-- Witness for C7 at concrete inputs: a 256-character name is rejected
leaving the table alone; a short name creates a missing node and renames an
existing one. -/
theorem C7_set_node_name_witness :
    (DataInterface.set_node_name DBState.empty (PyVal.int 99999)
        (String.mk (List.replicate 256 'a')) =
      Except.error (PyError.valueError
        ("The name " ++ String.mk (List.replicate 256 'a') ++
         " is longer than 256 characters.")) ∧
      applySetNodeName DBState.empty (PyVal.int 99999)
        (String.mk (List.replicate 256 'a')) = DBState.empty) ∧
    (DataInterface.set_node_name DBState.empty (PyVal.int 44444) "Test Node 3" =
      Except.ok
        ({ nodes := [{ id := PyVal.int 44444, name := "Test Node 3", last_ip := Option.none }],
           firmware_files := [], stats_entries := [], next_entry_id := 0 },
         { id := PyVal.int 44444, name := "Test Node 3", last_ip := Option.none })) ∧
    (DataInterface.set_node_name
        { nodes := [{ id := PyVal.int 12345, name := "12345", last_ip := some "10.3.0.1" }],
          firmware_files := [], stats_entries := [], next_entry_id := 0 }
        (PyVal.int 12345) "Test Node 1" =
      Except.ok
        ({ nodes := [{ id := PyVal.int 12345, name := "Test Node 1", last_ip := some "10.3.0.1" }],
           firmware_files := [], stats_entries := [], next_entry_id := 0 },
         { id := PyVal.int 12345, name := "Test Node 1", last_ip := some "10.3.0.1" })) := by
  refine ⟨?_, ?_, ?_⟩
  · exact C7_set_node_name.1 DBState.empty (PyVal.int 99999)
      (String.mk (List.replicate 256 'a')) (by decide)
  · exact C7_set_node_name.2.1 DBState.empty (PyVal.int 44444) "Test Node 3"
      (by decide) rfl
  · exact (C7_set_node_name.2.2
      { nodes := [{ id := PyVal.int 12345, name := "12345", last_ip := some "10.3.0.1" }],
        firmware_files := [], stats_entries := [], next_entry_id := 0 }
      (PyVal.int 12345) "Test Node 1"
      { id := PyVal.int 12345, name := "12345", last_ip := some "10.3.0.1" }
      (by decide) rfl).1

/-- C8: telemetry identity is the dedicated autoincrement surrogate key
`entry_id`, not the timestamp.  Ingesting two valid samples whose payload
timestamps are numerically identical (typed datetimes equal to `d`, from
the same or different node ids) persists two distinct rows under
consecutive surrogate keys, and both stored timestamps equal `d` exactly
(no jitter). -/
theorem C8_surrogate_key_distinct_rows (localOff : Int) (db db1 db2 : DBState)
    (s1 s2 : Payload) (ip1 ip2 : Option String) (d : PyDatetime)
    (ht1 : dictGet s1 "timestamp" = some (PyVal.dt d))
    (ht2 : dictGet s2 "timestamp" = some (PyVal.dt d))
    (hok1 : DataInterface.ingest localOff db s1 ip1 = Except.ok db1)
    (hok2 : DataInterface.ingest localOff db1 s2 ip2 = Except.ok db2) :
    ∃ i1 i2 : StatsInstance,
      db2.stats_entries = db.stats_entries ++
        [{ entry_id := db.next_entry_id, inst := i1 },
         { entry_id := db.next_entry_id + 1, inst := i2 }] ∧
      i1.timestamp = d ∧ i2.timestamp = d ∧
      db.next_entry_id ≠ db.next_entry_id + 1 := by
  obtain ⟨i1, sid1, hfd1, hid1, hn1, hs1, hk1, -⟩ :=
    ingest_ok_elim localOff db s1 ip1 db1 hok1
  obtain ⟨i2, sid2, hfd2, hid2, hn2, hs2, hk2, -⟩ :=
    ingest_ok_elim localOff db1 s2 ip2 db2 hok2
  have hts1 : i1.timestamp = d := by
    obtain ⟨-, vTs, hvTs, hconv⟩ := from_dict_ok_elim localOff s1 i1 hfd1
    rw [ht1] at hvTs
    cases hvTs
    cases hconv
    rfl
  have hts2 : i2.timestamp = d := by
    obtain ⟨-, vTs, hvTs, hconv⟩ := from_dict_ok_elim localOff s2 i2 hfd2
    rw [ht2] at hvTs
    cases hvTs
    cases hconv
    rfl
  refine ⟨i1, i2, ?_, hts1, hts2, by omega⟩
  rw [hs2, hs1, hk1, List.append_assoc]
  rfl

/-- Witness for C8: ingest the same typed-timestamp payload for two node
ids starting from the empty database; two rows with surrogate keys 0 and 1
result, both carrying the identical timestamp. -/
theorem C8_surrogate_key_distinct_rows_witness :
    ∃ i1 i2 : StatsInstance,
      (applyIngest 0 (applyIngest 0 DBState.empty payloadNullFloats Option.none)
        (("id", PyVal.int 8) :: payloadNullFloats.drop 1) Option.none).stats_entries =
        [{ entry_id := 0, inst := i1 }, { entry_id := 1, inst := i2 }] ∧
      i1.timestamp = { wallSeconds := 100, utcOffsetSeconds := some 0 } ∧
      i2.timestamp = { wallSeconds := 100, utcOffsetSeconds := some 0 } ∧
      (0 : Nat) ≠ 1 := by
  have h := C8_surrogate_key_distinct_rows 0 DBState.empty
    (applyIngest 0 DBState.empty payloadNullFloats Option.none)
    (applyIngest 0 (applyIngest 0 DBState.empty payloadNullFloats Option.none)
      (("id", PyVal.int 8) :: payloadNullFloats.drop 1) Option.none)
    payloadNullFloats (("id", PyVal.int 8) :: payloadNullFloats.drop 1)
    Option.none Option.none { wallSeconds := 100, utcOffsetSeconds := some 0 }
    rfl rfl rfl rfl
  simpa using h

/-- A valid payload whose timestamp is an already-typed naive datetime. -/
def payloadNaiveTs : Payload :=
  [("id", PyVal.int 5),
   ("timestamp", PyVal.dt { wallSeconds := 0, utcOffsetSeconds := Option.none }),
   ("high_temp", PyVal.none), ("low_temp", PyVal.none),
   ("air_temp", PyVal.none), ("humidity", PyVal.none),
   ("digital_1", PyVal.int 0), ("digital_2", PyVal.int 1), ("analog", PyVal.int 3)]

/-- Counterexample to C9 as stated: a payload carrying an already-typed
naive datetime is ingested successfully, and the stored timestamp is the
naive value itself — not timezone-aware, not normalized to UTC.  Only the
string branch of `from_dict` applies `astimezone(utc)`. -/
theorem C9_timestamp_counterexample :
    StatsInstance.from_dict 0 payloadNaiveTs =
      Except.ok { id := PyVal.int 5,
                  timestamp := { wallSeconds := 0, utcOffsetSeconds := Option.none },
                  high_temp := PyVal.none, low_temp := PyVal.none,
                  air_temp := PyVal.none, humidity := PyVal.none,
                  digital_1 := PyVal.int 0, digital_2 := PyVal.int 1,
                  analog := PyVal.int 3 } ∧
    ({ wallSeconds := 0, utcOffsetSeconds := Option.none } : PyDatetime).utcOffsetSeconds ≠
      some 0 :=
  ⟨rfl, by decide⟩

/-- `astimezone(utc)` always yields an aware value with offset 0. -/
theorem astimezoneUtc_offset (localOff : Int) (d : PyDatetime) :
    (PyDatetime.astimezoneUtc localOff d).utcOffsetSeconds = some 0 := by
  unfold PyDatetime.astimezoneUtc
  cases d.utcOffsetSeconds <;> rfl

/-- C9 (amended): for every successfully ingested payload, a timestamp
supplied as an ISO-8601 string is parsed and converted to UTC before
storage (the stored value is aware with offset 0); a timestamp supplied as
an already-typed datetime is stored exactly as given, without any
normalization. -/
theorem C9_timestamp_normalization_amended (localOff : Int) (stats : Payload)
    (inst : StatsInstance)
    (h : StatsInstance.from_dict localOff stats = Except.ok inst) :
    (∃ s d0, dictGet stats "timestamp" = some (PyVal.str s) ∧
      fromisoformat s = some d0 ∧
      inst.timestamp = PyDatetime.astimezoneUtc localOff d0 ∧
      inst.timestamp.utcOffsetSeconds = some 0) ∨
    (∃ d, dictGet stats "timestamp" = some (PyVal.dt d) ∧ inst.timestamp = d) := by
  obtain ⟨-, vTs, hvTs, hconv⟩ := from_dict_ok_elim localOff stats inst h
  cases vTs with
  | dt d =>
    right
    refine ⟨d, hvTs, ?_⟩
    cases hconv
    rfl
  | str s =>
    left
    have hconv' : (match fromisoformat s with
        | some d => Except.ok (PyDatetime.astimezoneUtc localOff d)
        | Option.none =>
          Except.error (PyError.valueError ("Invalid isoformat string: " ++ s)))
        = Except.ok inst.timestamp := hconv
    cases hiso : fromisoformat s with
    | none =>
      rw [hiso] at hconv'
      exact absurd hconv' (by simp)
    | some d0 =>
      rw [hiso] at hconv'
      have heq : PyDatetime.astimezoneUtc localOff d0 = inst.timestamp :=
        Except.ok.inj hconv'
      exact ⟨s, d0, hvTs, hiso, heq.symm,
        heq ▸ astimezoneUtc_offset localOff d0⟩
  | none => exact absurd hconv (by simp [toStoredTimestamp])
  | int n => exact absurd hconv (by simp [toStoredTimestamp])
  | float q => exact absurd hconv (by simp [toStoredTimestamp])

/-- Witness for the amended C9: the sample payload with an offset-carrying
ISO string timestamp lands in the string branch, stored aware at UTC. -/
theorem C9_timestamp_normalization_amended_witness :
    (∃ s d0, dictGet
        (("timestamp", PyVal.str "2020-03-20T14:30:43+05:00") :: payloadNaiveTs.drop 2 ++
          [("id", PyVal.int 5)])
        "timestamp" = some (PyVal.str s) ∧
      fromisoformat s = some d0 ∧
      ({ wallSeconds := 63720293443, utcOffsetSeconds := some 0 } : PyDatetime) =
        PyDatetime.astimezoneUtc 0 d0 ∧
      ({ wallSeconds := 63720293443, utcOffsetSeconds := some 0 }
        : PyDatetime).utcOffsetSeconds = some 0) ∨
    (∃ d, dictGet
        (("timestamp", PyVal.str "2020-03-20T14:30:43+05:00") :: payloadNaiveTs.drop 2 ++
          [("id", PyVal.int 5)])
        "timestamp" = some (PyVal.dt d) ∧
      ({ wallSeconds := 63720293443, utcOffsetSeconds := some 0 } : PyDatetime) = d) := by
  have h := C9_timestamp_normalization_amended 0
    (("timestamp", PyVal.str "2020-03-20T14:30:43+05:00") :: payloadNaiveTs.drop 2 ++
      [("id", PyVal.int 5)])
    { id := PyVal.int 5,
      timestamp := { wallSeconds := 63720293443, utcOffsetSeconds := some 0 },
      high_temp := PyVal.none, low_temp := PyVal.none,
      air_temp := PyVal.none, humidity := PyVal.none,
      digital_1 := PyVal.int 0, digital_2 := PyVal.int 1, analog := PyVal.int 3 }
    rfl
  simpa using h

/-! ## The filename parser agrees with the declarative pattern -/

/-- `expectChar` succeeds exactly on lists starting with the literal. -/
theorem expectChar_eq_some (c : Char) (l r : List Char) :
    expectChar c l = some r ↔ l = c :: r := by
  cases l with
  | nil => simp [expectChar]
  | cons x rest =>
    by_cases h : x = c
    · subst h; simp [expectChar]
    · simp [expectChar, h, Ne.symm h]

/-- `dotBinOk` recognizes exactly the lists starting with `.bin`. -/
theorem dotBinOk_iff (l : List Char) :
    dotBinOk l = true ↔ ∃ rest, l = '.' :: 'b' :: 'i' :: 'n' :: rest := by
  constructor
  · intro h
    unfold dotBinOk at h
    cases h1 : expectChar '.' l with
    | none => rw [h1] at h; exact absurd h (by simp)
    | some l1 =>
      rw [h1] at h
      have hb : (match expectChar 'b' l1 with
          | some l2 =>
            match expectChar 'i' l2 with
            | some l3 => (expectChar 'n' l3).isSome
            | Option.none => false
          | Option.none => false) = true := h
      cases h2 : expectChar 'b' l1 with
      | none => rw [h2] at hb; exact absurd hb (by simp)
      | some l2 =>
        rw [h2] at hb
        have hi : (match expectChar 'i' l2 with
            | some l3 => (expectChar 'n' l3).isSome
            | Option.none => false) = true := hb
        cases h3 : expectChar 'i' l2 with
        | none => rw [h3] at hi; exact absurd hi (by simp)
        | some l3 =>
          rw [h3] at hi
          have hn : (expectChar 'n' l3).isSome = true := hi
          cases h4 : expectChar 'n' l3 with
          | none => rw [h4] at hn; exact absurd hn (by simp)
          | some l4 =>
            refine ⟨l4, ?_⟩
            rw [(expectChar_eq_some _ _ _).mp h1, (expectChar_eq_some _ _ _).mp h2,
                (expectChar_eq_some _ _ _).mp h3, (expectChar_eq_some _ _ _).mp h4]
  · rintro ⟨rest, rfl⟩
    rfl

/-- Every character of a `takeWhile` run satisfies the predicate. -/
theorem mem_takeWhile_sat {p : Char → Bool} :
    ∀ (l : List Char), ∀ c ∈ l.takeWhile p, p c = true := by
  intro l
  induction l with
  | nil => simp
  | cons x rest ih =>
    by_cases h : p x
    · intro c hc
      rw [List.takeWhile_cons_of_pos h] at hc
      rcases List.mem_cons.mp hc with rfl | hc
      · exact h
      · exact ih c hc
    · intro c hc
      rw [List.takeWhile_cons_of_neg h] at hc
      simp at hc

/-- `takeWhile` over a run of satisfying characters followed by a failing
one captures exactly the run. -/
theorem takeWhile_append_stop {p : Char → Bool} (xs : List Char) (y : Char) (ys : List Char)
    (hxs : ∀ c ∈ xs, p c = true) (hy : p y = false) :
    (xs ++ y :: ys).takeWhile p = xs := by
  induction xs with
  | nil => simp [List.takeWhile_cons, hy]
  | cons x rest ih =>
    have hx : p x = true := hxs x (List.mem_cons_self x rest)
    simp only [List.cons_append, List.takeWhile_cons_of_pos hx]
    rw [ih (fun c hc => hxs c (List.mem_cons_of_mem x hc))]

/-- `dropWhile` counterpart of `takeWhile_append_stop`. -/
theorem dropWhile_append_stop {p : Char → Bool} (xs : List Char) (y : Char) (ys : List Char)
    (hxs : ∀ c ∈ xs, p c = true) (hy : p y = false) :
    (xs ++ y :: ys).dropWhile p = y :: ys := by
  induction xs with
  | nil => simp [List.dropWhile_cons, hy]
  | cons x rest ih =>
    have hx : p x = true := hxs x (List.mem_cons_self x rest)
    simp only [List.cons_append, List.dropWhile_cons_of_pos hx]
    exact ih (fun c hc => hxs c (List.mem_cons_of_mem x hc))

/-- Scanning a run of digits in the no-digit-needed state just passes
through. -/
theorem versionScan_false_digits (d : List Char) (l : List Char)
    (hd : ∀ c ∈ d, c.isDigit = true) :
    versionScan false (d ++ l) = versionScan false l := by
  induction d with
  | nil => rfl
  | cons c rest ih =>
    have hc : c.isDigit = true := hd c (List.mem_cons_self c rest)
    have hdot : (c == '.') = false := by
      by_cases hc' : c = '.'
      · subst hc'
        exact absurd hc (by decide)
      · simpa using hc' 
    simp only [List.cons_append, versionScan, hdot, Bool.false_eq_true, if_false, hc,
      Bool.true_and]
    exact ih (fun x hx => hd x (List.mem_cons_of_mem c hx))

/-- Scanning a nonempty run of digits from the digit-needed state passes to
the no-digit-needed state. -/
theorem versionScan_true_digits (d : List Char) (l : List Char) (hne : d ≠ [])
    (hd : ∀ c ∈ d, c.isDigit = true) :
    versionScan true (d ++ l) = versionScan false l := by
  cases d with
  | nil => exact absurd rfl hne
  | cons c rest =>
    have hc : c.isDigit = true := hd c (List.mem_cons_self c rest)
    simp only [List.cons_append, versionScan, hc, Bool.true_and]
    exact versionScan_false_digits rest l (fun x hx => hd x (List.mem_cons_of_mem c hx))

/-- Completeness: every word of the version language is accepted by the
scanner. -/
theorem versionOk_of_lang (v : List Char) (h : VersionLang v) : versionOk v = true := by
  induction h with
  | last d hne hd =>
    show versionScan true d = true
    have : versionScan true (d ++ []) = versionScan false [] :=
      versionScan_true_digits d [] hne hd
    simpa using this
  | cons d rest hne hd hrest ih =>
    show versionScan true (d ++ '.' :: rest) = true
    rw [versionScan_true_digits d ('.' :: rest) hne hd]
    simpa [versionScan] using ih

/-- Soundness: the scanner only accepts words of the version language (the
`false`-state claim carries the digit group prefix being read). -/
theorem versionScan_sound (l : List Char) :
    (versionScan true l = true → VersionLang l) ∧
    (versionScan false l = true →
      ∀ ds, ds ≠ [] → (∀ c ∈ ds, c.isDigit = true) → VersionLang (ds ++ l)) := by
  induction l with
  | nil =>
    constructor
    · intro h; exact absurd h (by simp [versionScan])
    · intro h ds hne hdig
      simpa using VersionLang.last ds hne hdig
  | cons c rest ih =>
    constructor
    · intro h
      have hc : c.isDigit = true ∧ versionScan false rest = true := by
        simpa [versionScan, Bool.and_eq_true] using h
      have := ih.2 hc.2 [c] (by simp) (by simpa using hc.1)
      simpa using this
    · intro h ds hne hdig
      by_cases hdot : c = '.'
      · subst hdot
        have hrest : versionScan true rest = true := by simpa [versionScan] using h
        exact VersionLang.cons ds rest hne hdig (ih.1 hrest)
      · have hdot' : (c == '.') = false := by simpa using hdot
        have hc : c.isDigit = true ∧ versionScan false rest = true := by
          simpa [versionScan, hdot', Bool.and_eq_true] using h
        have hstep := ih.2 hc.2 (ds ++ [c]) (by simp)
          (by
            intro x hx
            rcases List.mem_append.mp hx with hx | hx
            · exact hdig x hx
            · rcases List.mem_singleton.mp hx with rfl
              exact hc.1)
        simpa using hstep

/-- Every character of a version-language word is a digit or a dot. -/
theorem verChar_of_lang (v : List Char) (h : VersionLang v) :
    ∀ c ∈ v, isVerChar c = true := by
  induction h with
  | last d hne hd =>
    intro c hc
    simp [isVerChar, hd c hc]
  | cons d rest hne hd hrest ih =>
    intro c hc
    rcases List.mem_append.mp hc with hc | hc
    · simp [isVerChar, hd c hc]
    · rcases List.mem_cons.mp hc with rfl | hc
      · simp [isVerChar]
      · exact ih c hc

/-- Soundness of the parser: a successful match decomposes the input as
`<name>-<version>-<hash>.bin<rest>` with the captured groups satisfying
their character classes. -/
theorem fwMatchList_sound (l name ver hash : List Char)
    (h : fwMatchList l = some (name, ver, hash)) :
    ∃ rest, l = name ++ '-' :: (ver ++ '-' :: (hash ++ '.' :: 'b' :: 'i' :: 'n' :: rest)) ∧
      name ≠ [] ∧ (∀ c ∈ name, isWordChar c = true) ∧ VersionLang ver ∧
      hash.length = 32 ∧ (∀ c ∈ hash, isHexDigitChar c = true) := by
  unfold fwMatchList at h
  by_cases hemp : (l.takeWhile isWordChar).isEmpty = true
  · rw [if_pos hemp] at h; exact absurd h (by simp)
  · rw [if_neg hemp] at h
    cases h1 : expectChar '-' (l.dropWhile isWordChar) with
    | none => rw [h1] at h; exact absurd h (by simp)
    | some r2 =>
      rw [h1] at h
      have hA : (if versionOk (r2.takeWhile isVerChar) = true then
          match expectChar '-' (r2.dropWhile isVerChar) with
          | Option.none => Option.none
          | some r4 =>
            if ((r4.take 32).length == 32 && (r4.take 32).all isHexDigitChar &&
                dotBinOk (r4.drop 32)) = true then
              some (l.takeWhile isWordChar, r2.takeWhile isVerChar, r4.take 32)
            else Option.none
          else Option.none) = some (name, ver, hash) := h
      clear h
      by_cases hver : versionOk (r2.takeWhile isVerChar) = true
      · rw [if_pos hver] at hA
        cases h2 : expectChar '-' (r2.dropWhile isVerChar) with
        | none => rw [h2] at hA; exact absurd hA (by simp)
        | some r4 =>
          rw [h2] at hA
          have hB : (if ((r4.take 32).length == 32 && (r4.take 32).all isHexDigitChar &&
              dotBinOk (r4.drop 32)) = true then
                some (l.takeWhile isWordChar, r2.takeWhile isVerChar, r4.take 32)
              else Option.none) = some (name, ver, hash) := hA
          clear hA
          by_cases hg : ((r4.take 32).length == 32 && (r4.take 32).all isHexDigitChar &&
              dotBinOk (r4.drop 32)) = true
          · rw [if_pos hg] at hB
            simp only [Option.some.injEq, Prod.mk.injEq] at hB
            obtain ⟨hn, hv, hh⟩ := hB
            subst hn; subst hv; subst hh
            have hsplit : ((r4.take 32).length == 32) = true ∧
                (r4.take 32).all isHexDigitChar = true ∧
                dotBinOk (r4.drop 32) = true := by
              simpa [Bool.and_eq_true, and_assoc] using hg
            obtain ⟨hg1, hg2, hg3⟩ := hsplit
            obtain ⟨rest, e3⟩ := (dotBinOk_iff _).mp hg3
            have e1 : l.dropWhile isWordChar = '-' :: r2 :=
              (expectChar_eq_some _ _ _).mp h1
            have e2 : r2.dropWhile isVerChar = '-' :: r4 :=
              (expectChar_eq_some _ _ _).mp h2
            have h2' : r2 = r2.takeWhile isVerChar ++ '-' :: r4 := by
              conv_lhs => rw [← List.takeWhile_append_dropWhile (p := isVerChar) (l := r2)]
              rw [e2]
            have h4' : r4 = r4.take 32 ++ '.' :: 'b' :: 'i' :: 'n' :: rest := by
              conv_lhs => rw [← List.take_append_drop 32 r4]
              rw [e3]
            have hl : l = l.takeWhile isWordChar ++ '-' :: r2 := by
              conv_lhs => rw [← List.takeWhile_append_dropWhile (p := isWordChar) (l := l)]
              rw [e1]
            refine ⟨rest, ?_, ?_, mem_takeWhile_sat l, (versionScan_sound _).1 hver, ?_, ?_⟩
            · conv_lhs => rw [hl]
              conv_lhs => rw [h2']
              conv_lhs => rw [h4']
            · intro hcon
              rw [List.isEmpty_iff] at hemp
              exact hemp hcon
            · have : (r4.take 32).length = 32 := by simpa using hg1
              exact this
            · exact fun c hc => List.all_eq_true.mp hg2 c hc
          · rw [if_neg hg] at hB; exact absurd hB (by simp)
      · rw [if_neg hver] at hA; exact absurd hA (by simp)

/-- Completeness of the parser: every input of the declarative shape is
matched, with the groups captured exactly. -/
theorem fwMatchList_complete (name ver hash rest : List Char)
    (hname : name ≠ []) (hword : ∀ c ∈ name, isWordChar c = true)
    (hver : VersionLang ver) (hlen : hash.length = 32)
    (hhex : ∀ c ∈ hash, isHexDigitChar c = true) :
    fwMatchList (name ++ '-' :: (ver ++ '-' :: (hash ++ '.' :: 'b' :: 'i' :: 'n' :: rest))) =
      some (name, ver, hash) := by
  have hdashW : isWordChar '-' = false := by decide
  have hdashV : isVerChar '-' = false := by decide
  have htake1 : (name ++ '-' :: (ver ++ '-' :: (hash ++ '.' :: 'b' :: 'i' :: 'n' ::
      rest))).takeWhile isWordChar = name :=
    takeWhile_append_stop name '-' _ hword hdashW
  have hdrop1 : (name ++ '-' :: (ver ++ '-' :: (hash ++ '.' :: 'b' :: 'i' :: 'n' ::
      rest))).dropWhile isWordChar = '-' :: (ver ++ '-' :: (hash ++ '.' :: 'b' :: 'i' ::
      'n' :: rest)) :=
    dropWhile_append_stop name '-' _ hword hdashW
  have htake2 : (ver ++ '-' :: (hash ++ '.' :: 'b' :: 'i' :: 'n' ::
      rest)).takeWhile isVerChar = ver :=
    takeWhile_append_stop ver '-' _ (verChar_of_lang ver hver) hdashV
  have hdrop2 : (ver ++ '-' :: (hash ++ '.' :: 'b' :: 'i' :: 'n' ::
      rest)).dropWhile isVerChar = '-' :: (hash ++ '.' :: 'b' :: 'i' :: 'n' :: rest) :=
    dropWhile_append_stop ver '-' _ (verChar_of_lang ver hver) hdashV
  have htk32 : (hash ++ '.' :: 'b' :: 'i' :: 'n' :: rest).take 32 = hash :=
    List.take_left' hlen
  have hdp32 : (hash ++ '.' :: 'b' :: 'i' :: 'n' :: rest).drop 32 = '.' :: 'b' :: 'i' ::
      'n' :: rest :=
    List.drop_left' hlen
  have hnm : name.isEmpty = false := by
    cases name with
    | nil => exact absurd rfl hname
    | cons c cs => rfl
  have hexp : ∀ t : List Char, expectChar '-' ('-' :: t) = some t := by
    intro t; simp [expectChar]
  have hvOk : versionOk ver = true := versionOk_of_lang ver hver
  have hlen' : (hash.length == 32) = true := by simp [hlen]
  have hall : hash.all isHexDigitChar = true := List.all_eq_true.mpr hhex
  have hdotbin : dotBinOk ('.' :: 'b' :: 'i' :: 'n' :: rest) = true := rfl
  unfold fwMatchList
  rw [htake1, hdrop1, hexp, hnm]
  simp only [Bool.false_eq_true, if_false, hexp, htake2, hdrop2, hvOk, htk32, hdp32,
    hlen', hall, hdotbin, Bool.and_self, Bool.true_and, Bool.and_true, eq_self_iff_true,
    if_true]

/-- Inversion of `from_file`: a success comes from a parser match whose
groups are the stored fields. -/
theorem from_file_ok_elim (fname : String) (fdata : Bytes) (fw : FirmwareFile)
    (h : FirmwareFile.from_file fname fdata = Except.ok fw) :
    fwMatchList fname.toList = some (fw.name.toList, fw.lib_version.toList, fw.hash.toList) ∧
    fw.firmware = fdata := by
  unfold FirmwareFile.from_file at h
  cases hm : fwMatchList fname.toList with
  | none => rw [hm] at h; exact absurd h (by simp)
  | some g =>
    obtain ⟨n, v, hs⟩ := g
    rw [hm] at h
    have hfw : fw = { name := String.mk n, lib_version := String.mk v,
                      hash := String.mk hs, firmware := fdata } := (Except.ok.inj h).symm
    subst hfw
    exact ⟨rfl, rfl⟩

/-- Counterexample to C4 as stated: the pattern is compiled without a `$`
anchor and applied with `re.match`, so a filename with trailing characters
after `.bin` is accepted rather than rejected. -/
theorem C4_filename_trailing_counterexample :
    FirmwareFile.from_file "fw1-1.2.3-8ddd8be4b179a529afa5f2ffae4b9858.bin.exe" [1] =
      Except.ok { name := "fw1", lib_version := "1.2.3",
                  hash := "8ddd8be4b179a529afa5f2ffae4b9858", firmware := [1] } := rfl

/-- C4 (amended): a filename is accepted exactly when a prefix of it,
anchored at the start, matches `<name:\w+>-<version:(\d+\.)*\d+>-` followed
by 32 hex characters and `.bin`; arbitrary trailing characters after
`.bin` are allowed.  Every other filename fails with the validation error
(`AttributeError`). -/
theorem C4_filename_parser_amended :
    (∀ (fname : String) (fdata : Bytes),
      (∃ fw, FirmwareFile.from_file fname fdata = Except.ok fw) ↔ FwNameMatch fname.toList) ∧
    (∀ (fname : String) (fdata : Bytes),
      ¬ FwNameMatch fname.toList →
      FirmwareFile.from_file fname fdata =
        Except.error (PyError.attributeError "file name is invalid.")) := by
  have hfwd : ∀ (fname : String) (fdata : Bytes),
      (∃ fw, FirmwareFile.from_file fname fdata = Except.ok fw) → FwNameMatch fname.toList := by
    intro fname fdata ⟨fw, hok⟩
    obtain ⟨hm, -⟩ := from_file_ok_elim fname fdata fw hok
    obtain ⟨rest, hdecomp, hne, hword, hlang, hlen, hhex⟩ :=
      fwMatchList_sound fname.toList fw.name.toList fw.lib_version.toList fw.hash.toList hm
    exact ⟨fw.name.toList, fw.lib_version.toList, fw.hash.toList, rest,
      hdecomp, hne, hword, hlang, hlen, hhex⟩
  constructor
  · intro fname fdata
    constructor
    · exact hfwd fname fdata
    · rintro ⟨name, ver, hash, rest, hdecomp, hne, hword, hlang, hlen, hhex⟩
      refine ⟨{ name := String.mk name, lib_version := String.mk ver,
                hash := String.mk hash, firmware := fdata }, ?_⟩
      unfold FirmwareFile.from_file
      rw [hdecomp, fwMatchList_complete name ver hash rest hne hword hlang hlen hhex]
  · intro fname fdata hnom
    unfold FirmwareFile.from_file
    cases hm : fwMatchList fname.toList with
    | none => rfl
    | some g =>
      obtain ⟨n, v, hs⟩ := g
      exfalso
      refine hnom (hfwd fname fdata ⟨{ name := String.mk n, lib_version := String.mk v,
                                       hash := String.mk hs, firmware := fdata }, ?_⟩)
      unfold FirmwareFile.from_file
      rw [hm]

/-- Witness for the amended C4: a well-formed filename is accepted, and the
acceptance yields the declarative decomposition. -/
theorem C4_filename_parser_amended_witness :
    FwNameMatch ("fw2-1-3858f62230ac3c915f300c664312c63f.bin".toList) :=
  (C4_filename_parser_amended.1 "fw2-1-3858f62230ac3c915f300c664312c63f.bin" [2]).mp
    ⟨{ name := "fw2", lib_version := "1", hash := "3858f62230ac3c915f300c664312c63f",
       firmware := [2] }, rfl⟩

/-- Counterexample to C3 as stated: an uppercase-hex filename parses, and
the stored hash keeps the uppercase characters — `from_file` performs no
lower-casing — and the composed version tag embeds it verbatim. -/
theorem C3_hash_not_lowercased_counterexample :
    FirmwareFile.from_file "fw1-1.2.3-ABCDEF0123456789ABCDEF0123456789.bin" [] =
      Except.ok { name := "fw1", lib_version := "1.2.3",
                  hash := "ABCDEF0123456789ABCDEF0123456789", firmware := [] } ∧
    ("ABCDEF0123456789ABCDEF0123456789".toList.any Char.isUpper) = true ∧
    FirmwareFile.version { name := "fw1", lib_version := "1.2.3",
                           hash := "ABCDEF0123456789ABCDEF0123456789", firmware := [] } =
      "fw1-1.2.3-ABCDEF0123456789ABCDEF0123456789" :=
  ⟨rfl, by decide, rfl⟩

/-- C3 (amended): for every successfully parsed archive entry the stored
hash is the filename's 32 hex characters copied verbatim — no case
normalization is applied — and the version tag is composed from the stored
fields as `{name}-{lib_version}-{hash}`. -/
theorem C3_hash_stored_verbatim_amended (fname : String) (fdata : Bytes) (fw : FirmwareFile)
    (h : FirmwareFile.from_file fname fdata = Except.ok fw) :
    ∃ rest, fname.toList = fw.name.toList ++ '-' :: (fw.lib_version.toList ++ '-' ::
        (fw.hash.toList ++ '.' :: 'b' :: 'i' :: 'n' :: rest)) ∧
      fw.hash.toList.length = 32 ∧ (∀ c ∈ fw.hash.toList, isHexDigitChar c = true) ∧
      FirmwareFile.version fw = fw.name ++ "-" ++ fw.lib_version ++ "-" ++ fw.hash := by
  obtain ⟨hm, -⟩ := from_file_ok_elim fname fdata fw h
  obtain ⟨rest, hdecomp, -, -, -, hlen, hhex⟩ :=
    fwMatchList_sound fname.toList fw.name.toList fw.lib_version.toList fw.hash.toList hm
  exact ⟨rest, hdecomp, hlen, hhex, rfl⟩

/-- Witness for the amended C3 at a concrete lowercase filename. -/
theorem C3_hash_stored_verbatim_amended_witness :
    ∃ rest, "fw3-2.4-85dbd03215461e59b6c6a163b80229a1.bin".toList =
        ("fw3".toList ++ '-' :: ("2.4".toList ++ '-' ::
          ("85dbd03215461e59b6c6a163b80229a1".toList ++ '.' :: 'b' :: 'i' :: 'n' :: rest))) ∧
      "85dbd03215461e59b6c6a163b80229a1".toList.length = 32 ∧
      (∀ c ∈ "85dbd03215461e59b6c6a163b80229a1".toList, isHexDigitChar c = true) ∧
      FirmwareFile.version { name := "fw3", lib_version := "2.4",
                             hash := "85dbd03215461e59b6c6a163b80229a1", firmware := [3] } =
        "fw3" ++ "-" ++ "2.4" ++ "-" ++ "85dbd03215461e59b6c6a163b80229a1" := by
  have h := C3_hash_stored_verbatim_amended "fw3-2.4-85dbd03215461e59b6c6a163b80229a1.bin"
    [3] { name := "fw3", lib_version := "2.4", hash := "85dbd03215461e59b6c6a163b80229a1",
          firmware := [3] } rfl
  simpa using h

/-- A filename the pattern does not match makes `from_file` raise
`AttributeError`. -/
theorem from_file_error_of_nomatch (fname : String) (fdata : Bytes)
    (hm : fwMatchList fname.toList = Option.none) :
    FirmwareFile.from_file fname fdata =
      Except.error (PyError.attributeError "file name is invalid.") := by
  unfold FirmwareFile.from_file
  rw [hm]

/-- `AttributeError("file name is invalid.")` is the only error
`from_file` raises. -/
theorem from_file_error_shape (fname : String) (fdata : Bytes) (e : PyError)
    (h : FirmwareFile.from_file fname fdata = Except.error e) :
    e = PyError.attributeError "file name is invalid." := by
  unfold FirmwareFile.from_file at h
  cases hm : fwMatchList fname.toList with
  | none =>
    rw [hm] at h
    exact (Except.error.inj h).symm
  | some g =>
    obtain ⟨n, v, hs⟩ := g
    rw [hm] at h
    exact absurd h (by simp)

/-- The `add_firmware` loop aborts with `AttributeError` as soon as the
archive contains an unparsable filename, regardless of the session state
accumulated from earlier entries. -/
theorem addFirmwareLoop_error (archive : List (String × Bytes))
    (h : ∃ e ∈ archive, fwMatchList e.1.toList = Option.none) :
    ∀ files, addFirmwareLoop files archive =
      Except.error (PyError.attributeError "file name is invalid.") := by
  induction archive with
  | nil => simp at h
  | cons e rest ih =>
    intro files
    obtain ⟨e', he', hbad⟩ := h
    rcases List.mem_cons.mp he' with rfl | hmem
    · unfold addFirmwareLoop
      rw [from_file_error_of_nomatch e'.1 e'.2 hbad]
    · unfold addFirmwareLoop
      cases hf : FirmwareFile.from_file e.1 e.2 with
      | error err =>
        rw [from_file_error_shape e.1 e.2 err hf]
      | ok fw => exact ih ⟨e', hmem, hbad⟩ (mergeFw files fw)

/-- C1: an archive containing any entry whose filename does not parse makes
`add_firmware` fail with the validation error (`AttributeError`), and the
transaction rollback leaves the firmware table — indeed the whole database
— exactly as before the call, entries parsed earlier in the same call
included; `get_firmware_names` observes no change. -/
theorem C1_add_firmware_atomic (db : DBState) (archive : List (String × Bytes))
    (hbad : ∃ e ∈ archive, fwMatchList e.1.toList = Option.none) :
    DataInterface.add_firmware db archive =
      Except.error (PyError.attributeError "file name is invalid.") ∧
    applyAddFirmware db archive = db ∧
    (applyAddFirmware db archive).firmware_files = db.firmware_files ∧
    DataInterface.get_firmware_names (applyAddFirmware db archive) =
      DataInterface.get_firmware_names db := by
  have hloop := addFirmwareLoop_error archive hbad db.firmware_files
  have hmain : DataInterface.add_firmware db archive =
      Except.error (PyError.attributeError "file name is invalid.") := by
    unfold DataInterface.add_firmware
    rw [hloop]
  have hstate : applyAddFirmware db archive = db := by
    unfold applyAddFirmware
    rw [hmain]
  exact ⟨hmain, hstate, by rw [hstate], by rw [hstate]⟩

/-- Witness for C1: the spec's §8 archive `{fw1-1.2.3-<hash1>.bin,
fw2-1-<hash2>.bin, bad_name.txt}` applied to the empty database fails and
`listNames()` stays empty. -/
theorem C1_add_firmware_atomic_witness :
    DataInterface.add_firmware DBState.empty
      [("fw1-1.2.3-8ddd8be4b179a529afa5f2ffae4b9858.bin", [1]),
       ("fw2-1-3858f62230ac3c915f300c664312c63f.bin", [2]),
       ("bad_name.txt", [3])] =
      Except.error (PyError.attributeError "file name is invalid.") ∧
    applyAddFirmware DBState.empty
      [("fw1-1.2.3-8ddd8be4b179a529afa5f2ffae4b9858.bin", [1]),
       ("fw2-1-3858f62230ac3c915f300c664312c63f.bin", [2]),
       ("bad_name.txt", [3])] = DBState.empty ∧
    (applyAddFirmware DBState.empty
      [("fw1-1.2.3-8ddd8be4b179a529afa5f2ffae4b9858.bin", [1]),
       ("fw2-1-3858f62230ac3c915f300c664312c63f.bin", [2]),
       ("bad_name.txt", [3])]).firmware_files = DBState.empty.firmware_files ∧
    DataInterface.get_firmware_names (applyAddFirmware DBState.empty
      [("fw1-1.2.3-8ddd8be4b179a529afa5f2ffae4b9858.bin", [1]),
       ("fw2-1-3858f62230ac3c915f300c664312c63f.bin", [2]),
       ("bad_name.txt", [3])]) = DataInterface.get_firmware_names DBState.empty :=
  C1_add_firmware_atomic DBState.empty
    [("fw1-1.2.3-8ddd8be4b179a529afa5f2ffae4b9858.bin", [1]),
     ("fw2-1-3858f62230ac3c915f300c664312c63f.bin", [2]),
     ("bad_name.txt", [3])]
    ⟨("bad_name.txt", [3]), by decide, by decide⟩

/-! ## Per-name dynamics of `add_firmware`

Each loop iteration touches only the row named by the parsed entry, so the
evolution of the table projects, name by name, onto a step function on
`Option FirmwareFile`.  The idempotence and uniqueness facts of `add_firmware`
follow from lemmas about this projection. -/

/-- The effect of one reconciliation step on the row holding the entry's
name: insert when absent, overwrite on version change, otherwise keep. -/
def stepRow (r : Option FirmwareFile) (fw : FirmwareFile) : Option FirmwareFile :=
  match r with
  | Option.none => some fw
  | some f => if f.version = fw.version then some f else some (updRow f fw)

/-- Iterated reconciliation steps over a list of parsed entries. -/
def stepsRow (r : Option FirmwareFile) (l : List FirmwareFile) : Option FirmwareFile :=
  l.foldl stepRow r

/-- The successfully parsed entries of an archive that carry a given
firmware name, in order. -/
def fwsOf : List (String × Bytes) → String → List FirmwareFile
  | [], _ => []
  | e :: rest, n =>
    match FirmwareFile.from_file e.1 e.2 with
    | Except.ok fw => if fw.name = n then fw :: fwsOf rest n else fwsOf rest n
    | Except.error _ => fwsOf rest n

/-- A found row carries the queried name. -/
theorem findRow_name (files : List FirmwareFile) (n : String) (f : FirmwareFile)
    (h : findRow files n = some f) : f.name = n := by
  induction files with
  | nil => simp [findRow] at h
  | cons g rest ih =>
    by_cases hg : g.name = n
    · rw [findRow, if_pos hg] at h
      cases h
      exact hg
    · rw [findRow, if_neg hg] at h
      exact ih h

/-- `findRow` misses exactly the names absent from the table. -/
theorem findRow_eq_none_iff (files : List FirmwareFile) (n : String) :
    findRow files n = Option.none ↔ n ∉ files.map FirmwareFile.name := by
  induction files with
  | nil => simp [findRow]
  | cons f rest ih =>
    by_cases h : f.name = n
    · simp [findRow, h]
    · simp [findRow, h, ih, Ne.symm h]

/-- `findRow` over an append looks left first. -/
theorem findRow_append (a b : List FirmwareFile) (n : String) :
    findRow (a ++ b) n =
      (match findRow a n with
       | some f => some f
       | Option.none => findRow b n) := by
  induction a with
  | nil => simp [findRow]
  | cons f rest ih =>
    by_cases h : f.name = n
    · simp [findRow, h]
    · simp [findRow, h, ih]

/-- `updateFirstRow` keeps the name column verbatim. -/
theorem updateFirstRow_map_name (files : List FirmwareFile) (fw : FirmwareFile) :
    (updateFirstRow files fw).map FirmwareFile.name = files.map FirmwareFile.name := by
  induction files with
  | nil => rfl
  | cons f rest ih =>
    by_cases h : f.name = fw.name
    · by_cases hv : f.version = fw.version
      · simp [updateFirstRow, h, hv]
      · simp [updateFirstRow, h, hv, updRow]
    · simp [updateFirstRow, h, ih]

/-- Projection of `updateFirstRow` through `findRow`. -/
theorem findRow_updateFirstRow (fw : FirmwareFile) (n : String) :
    ∀ files, findRow (updateFirstRow files fw) n =
      if n = fw.name then
        (match findRow files fw.name with
         | some f => some (if f.version = fw.version then f else updRow f fw)
         | Option.none => Option.none)
      else findRow files n := by
  intro files
  induction files with
  | nil =>
    by_cases hn : n = fw.name <;> simp [updateFirstRow, findRow, hn]
  | cons f rest ih =>
    by_cases hf : f.name = fw.name
    · have hrow : ((if f.version = fw.version then f else updRow f fw) : FirmwareFile).name
          = f.name := by
        by_cases hv : f.version = fw.version <;> simp [hv, updRow]
      by_cases hn : n = fw.name
      · rw [updateFirstRow, if_pos hf, findRow, hrow, hf, if_pos hn.symm, if_pos hn,
          findRow, if_pos hf]
      · have hfn : f.name ≠ n := by rw [hf]; exact fun hc => hn hc.symm
        rw [updateFirstRow, if_pos hf, findRow, hrow, if_neg hfn, if_neg hn, findRow,
          if_neg hfn]
    · by_cases hn : n = fw.name
      · have hfn : f.name ≠ n := by rw [hn]; exact hf
        rw [updateFirstRow, if_neg hf, findRow, if_neg hfn, ih, if_pos hn, if_pos hn,
          findRow, if_neg hf]
      · rw [updateFirstRow, if_neg hf, findRow, ih, if_neg hn, if_neg hn, findRow]

/-- Projection of one `add_firmware` iteration through `findRow`: the row
named by the entry takes one `stepRow`, every other row is untouched. -/
theorem findRow_mergeFw (files : List FirmwareFile) (fw : FirmwareFile) (n : String) :
    findRow (mergeFw files fw) n =
      if n = fw.name then stepRow (findRow files n) fw else findRow files n := by
  unfold mergeFw
  cases hf : findRow files fw.name with
  | none =>
    rw [findRow_append]
    by_cases hn : n = fw.name
    · subst hn
      rw [hf]
      simp [findRow, stepRow]
    · have hfn : fw.name ≠ n := fun hc => hn hc.symm
      rw [if_neg hn]
      cases hr : findRow files n with
      | none => simp [findRow, hfn]
      | some f => rfl
  | some f0 =>
    rw [findRow_updateFirstRow fw n files]
    by_cases hn : n = fw.name
    · subst hn
      rw [if_pos rfl, if_pos rfl, hf]
      by_cases hv : f0.version = fw.version <;> simp [stepRow, hv]
    · rw [if_neg hn, if_neg hn]

/-- `stepRow` from an existing row stays an existing row with the same
name. -/
theorem stepRow_some_name (f : FirmwareFile) (fw : FirmwareFile) :
    ∃ f', stepRow (some f) fw = some f' ∧ f'.name = f.name := by
  by_cases hv : f.version = fw.version
  · exact ⟨f, by simp [stepRow, hv], rfl⟩
  · exact ⟨updRow f fw, by simp [stepRow, hv], rfl⟩

/-- `stepsRow` from an existing row stays an existing row with the same
name. -/
theorem stepsRow_some_name (l : List FirmwareFile) :
    ∀ f : FirmwareFile, ∃ f', stepsRow (some f) l = some f' ∧ f'.name = f.name := by
  induction l with
  | nil => exact fun f => ⟨f, rfl, rfl⟩
  | cons fw l' ih =>
    intro f
    obtain ⟨g, hg, hgname⟩ := stepRow_some_name f fw
    obtain ⟨f', hf', hfname⟩ := ih g
    refine ⟨f', ?_, hfname.trans hgname⟩
    show stepsRow (stepRow (some f) fw) l' = some f'
    rw [hg]
    exact hf'

/-- Overwriting a row whose name equals the entry's name yields the entry's
version tag. -/
theorem updRow_version (f fw : FirmwareFile) (h : f.name = fw.name) :
    (updRow f fw).version = fw.version := by
  unfold updRow FirmwareFile.version
  rw [h]

/-- Two rows agreeing on name and version evolve to the same row under
`stepsRow`, unless both runs are complete no-ops. -/
theorem stepsRow_congr (l : List FirmwareFile) :
    ∀ f1 f2 : FirmwareFile, f1.name = f2.name → f1.version = f2.version →
      stepsRow (some f1) l = stepsRow (some f2) l ∨
      (stepsRow (some f1) l = some f1 ∧ stepsRow (some f2) l = some f2) := by
  induction l with
  | nil => exact fun f1 f2 _ _ => Or.inr ⟨rfl, rfl⟩
  | cons fw l' ih =>
    intro f1 f2 hname hver
    by_cases hv : f1.version = fw.version
    · have hv2 : f2.version = fw.version := hver ▸ hv
      have h1 : stepRow (some f1) fw = some f1 := by simp [stepRow, hv]
      have h2 : stepRow (some f2) fw = some f2 := by simp [stepRow, hv2]
      have hgoal1 : stepsRow (some f1) (fw :: l') = stepsRow (some f1) l' := by
        show stepsRow (stepRow (some f1) fw) l' = _
        rw [h1]
      have hgoal2 : stepsRow (some f2) (fw :: l') = stepsRow (some f2) l' := by
        show stepsRow (stepRow (some f2) fw) l' = _
        rw [h2]
      rw [hgoal1, hgoal2]
      exact ih f1 f2 hname hver
    · have hv2 : ¬ f2.version = fw.version := fun hc => hv (hver.trans hc)
      have h1 : stepRow (some f1) fw = some (updRow f1 fw) := by simp [stepRow, hv]
      have h2 : stepRow (some f2) fw = some (updRow f2 fw) := by simp [stepRow, hv2]
      have hupd : updRow f1 fw = updRow f2 fw := by
        unfold updRow
        rw [hname]
      left
      show stepsRow (stepRow (some f1) fw) l' = stepsRow (stepRow (some f2) fw) l'
      rw [h1, h2, hupd]

/-- Re-running the per-name reconciliation of one archive over its own
result is a no-op: the second pass ends exactly where the first did. -/
theorem stepsRow_idem (l : List FirmwareFile) (n : String)
    (hl : ∀ fw ∈ l, fw.name = n) :
    ∀ r : Option FirmwareFile, (∀ f, r = some f → f.name = n) →
      stepsRow (stepsRow r l) l = stepsRow r l := by
  induction l with
  | nil => exact fun r _ => rfl
  | cons fw l' ih =>
    intro r hr
    have hfw : fw.name = n := hl fw (List.mem_cons_self fw l')
    have hl' : ∀ g ∈ l', g.name = n := fun g hg => hl g (List.mem_cons_of_mem fw hg)
    -- the state after the head step exists and carries name `n`,
    -- with version equal to the entry's
    obtain ⟨ft, htEq, htName, htVer⟩ :
        ∃ ft, stepRow r fw = some ft ∧ ft.name = n ∧ ft.version = fw.version := by
      cases r with
      | none => exact ⟨fw, rfl, hfw, rfl⟩
      | some f =>
        have hfn : f.name = n := hr f rfl
        by_cases hv : f.version = fw.version
        · exact ⟨f, by simp [stepRow, hv], hfn, hv⟩
        · refine ⟨updRow f fw, by simp [stepRow, hv], hfn, ?_⟩
          exact updRow_version f fw (hfn.trans hfw.symm)
    have hcons : ∀ s : Option FirmwareFile,
        stepsRow s (fw :: l') = stepsRow (stepRow s fw) l' := fun s => rfl
    obtain ⟨fu, huEq, huName⟩ := stepsRow_some_name l' ft
    have hu : stepsRow r (fw :: l') = some fu := by
      rw [hcons r, htEq, huEq]
    rw [hu, hcons (some fu)]
    by_cases hv : fu.version = fw.version
    · have hstep : stepRow (some fu) fw = some fu := by simp [stepRow, hv]
      rw [hstep]
      have hidem := ih hl' (some ft) (fun f hf => by cases hf; exact htName)
      rw [huEq] at hidem
      exact hidem
    · have hstep : stepRow (some fu) fw = some (updRow fu fw) := by simp [stepRow, hv]
      rw [hstep]
      have hnames : (updRow fu fw).name = ft.name := by
        unfold updRow
        rw [huName, htName]
      have hvers : (updRow fu fw).version = ft.version := by
        rw [updRow_version fu fw ((huName.trans htName).trans hfw.symm), htVer]
      rcases stepsRow_congr l' (updRow fu fw) ft hnames hvers with hsame | ⟨-, hnoop⟩
      · rw [hsame, huEq]
      · exfalso
        rw [hnoop] at huEq
        exact hv ((Option.some.inj huEq) ▸ htVer)

/-- Entries collected by `fwsOf` carry the requested name. -/
theorem fwsOf_names (archive : List (String × Bytes)) (n : String) :
    ∀ fw ∈ fwsOf archive n, fw.name = n := by
  induction archive with
  | nil => simp [fwsOf]
  | cons e rest ih =>
    intro fw hfw
    unfold fwsOf at hfw
    cases hp : FirmwareFile.from_file e.1 e.2 with
    | error err =>
      rw [hp] at hfw
      exact ih fw hfw
    | ok g =>
      rw [hp] at hfw
      have hfw' : fw ∈ (if g.name = n then g :: fwsOf rest n else fwsOf rest n) := hfw
      by_cases hg : g.name = n
      · rw [if_pos hg] at hfw'
        rcases List.mem_cons.mp hfw' with rfl | hmem
        · exact hg
        · exact ih fw hmem
      · rw [if_neg hg] at hfw'
        exact ih fw hfw' 

/-- A completed `add_firmware` loop means every entry of the archive
parsed. -/
theorem loop_all_parse (archive : List (String × Bytes)) :
    ∀ files files', addFirmwareLoop files archive = Except.ok files' →
      ∀ e ∈ archive, ∃ fw, FirmwareFile.from_file e.1 e.2 = Except.ok fw := by
  induction archive with
  | nil => simp
  | cons e0 rest ih =>
    intro files files' h e he
    unfold addFirmwareLoop at h
    cases hp : FirmwareFile.from_file e0.1 e0.2 with
    | error err => rw [hp] at h; exact absurd h (by simp)
    | ok fw =>
      rw [hp] at h
      rcases List.mem_cons.mp he with rfl | he
      · exact ⟨fw, hp⟩
      · exact ih (mergeFw files fw) files' h e he

/-- Conversely, an archive whose entries all parse completes the loop from
any session state. -/
theorem loop_ok_exists (archive : List (String × Bytes))
    (h : ∀ e ∈ archive, ∃ fw, FirmwareFile.from_file e.1 e.2 = Except.ok fw) :
    ∀ files, ∃ files', addFirmwareLoop files archive = Except.ok files' := by
  induction archive with
  | nil => exact fun files => ⟨files, rfl⟩
  | cons e0 rest ih =>
    intro files
    obtain ⟨fw, hfw⟩ := h e0 (List.mem_cons_self e0 rest)
    obtain ⟨files', hrest⟩ :=
      ih (fun e he => h e (List.mem_cons_of_mem e0 he)) (mergeFw files fw)
    refine ⟨files', ?_⟩
    unfold addFirmwareLoop
    rw [hfw]
    exact hrest

/-- The whole `add_firmware` loop, projected through `findRow`, is the
per-name iteration of `stepRow` over the archive's entries of that name. -/
theorem loop_proj (archive : List (String × Bytes)) :
    ∀ files files', addFirmwareLoop files archive = Except.ok files' →
      ∀ n, findRow files' n = stepsRow (findRow files n) (fwsOf archive n) := by
  induction archive with
  | nil =>
    intro files files' h n
    cases h
    rfl
  | cons e0 rest ih =>
    intro files files' h n
    unfold addFirmwareLoop at h
    cases hp : FirmwareFile.from_file e0.1 e0.2 with
    | error err => rw [hp] at h; exact absurd h (by simp)
    | ok fw =>
      rw [hp] at h
      have hproj := ih (mergeFw files fw) files' h n
      rw [findRow_mergeFw files fw n] at hproj
      unfold fwsOf
      rw [hp]
      show findRow files' n = stepsRow (findRow files n)
        (if fw.name = n then fw :: fwsOf rest n else fwsOf rest n)
      by_cases hn : fw.name = n
      · rw [if_pos hn]
        rw [if_pos hn.symm] at hproj
        exact hproj
      · rw [if_neg hn]
        rw [if_neg (fun hc => hn hc.symm)] at hproj
        exact hproj

/-- One reconciliation iteration's effect on the name column: a new name is
appended, an existing one leaves the column unchanged. -/
theorem mergeFw_map_name (files : List FirmwareFile) (fw : FirmwareFile) :
    (mergeFw files fw).map FirmwareFile.name =
      (match findRow files fw.name with
       | Option.none => files.map FirmwareFile.name ++ [fw.name]
       | some _ => files.map FirmwareFile.name) := by
  unfold mergeFw
  cases hf : findRow files fw.name with
  | none => simp
  | some f0 => exact updateFirstRow_map_name files fw

/-- The loop preserves distinctness of the name column (at most one row per
name). -/
theorem loop_nodup (archive : List (String × Bytes)) :
    ∀ files files', addFirmwareLoop files archive = Except.ok files' →
      (files.map FirmwareFile.name).Nodup → (files'.map FirmwareFile.name).Nodup := by
  induction archive with
  | nil =>
    intro files files' h hnd
    cases h
    exact hnd
  | cons e0 rest ih =>
    intro files files' h hnd
    unfold addFirmwareLoop at h
    cases hp : FirmwareFile.from_file e0.1 e0.2 with
    | error err => rw [hp] at h; exact absurd h (by simp)
    | ok fw =>
      rw [hp] at h
      refine ih (mergeFw files fw) files' h ?_
      rw [mergeFw_map_name files fw]
      cases hf : findRow files fw.name with
      | none =>
        have hnotmem : fw.name ∉ files.map FirmwareFile.name :=
          (findRow_eq_none_iff files fw.name).mp hf
        simpa [List.nodup_append] using ⟨hnd, by simpa using hnotmem⟩
      | some f0 => exact hnd

/-- Inversion of a successful `add_firmware`: the committed state replaces
the firmware table with the loop's result, everything else untouched. -/
theorem add_firmware_ok_elim (db db' : DBState) (archive : List (String × Bytes))
    (h : DataInterface.add_firmware db archive = Except.ok db') :
    addFirmwareLoop db.firmware_files archive = Except.ok db'.firmware_files ∧
    db' = { db with firmware_files := db'.firmware_files } := by
  unfold DataInterface.add_firmware at h
  cases hloop : addFirmwareLoop db.firmware_files archive with
  | error e => rw [hloop] at h; exact absurd h (by simp)
  | ok files =>
    rw [hloop] at h
    have : { db with firmware_files := files } = db' := Except.ok.inj h
    subst this
    exact ⟨rfl, rfl⟩

/-- C6: `add_firmware` keeps at most one row per name; re-applying a
byte-identical archive is idempotent — every name resolves to the very same
row afterwards; and an archive entry carrying a different version for an
existing name overwrites `lib_version`, `hash` and `firmware` of that row
in place, creating no new row. -/
theorem C6_add_firmware_idempotent_upsert :
    (∀ (db db' : DBState) (archive : List (String × Bytes)),
      DataInterface.add_firmware db archive = Except.ok db' →
      (db.firmware_files.map FirmwareFile.name).Nodup →
      (db'.firmware_files.map FirmwareFile.name).Nodup) ∧
    (∀ (db db' : DBState) (archive : List (String × Bytes)),
      DataInterface.add_firmware db archive = Except.ok db' →
      ∃ db'', DataInterface.add_firmware db' archive = Except.ok db'' ∧
        ∀ n, DataInterface.get_firmware db'' n = DataInterface.get_firmware db' n) ∧
    (∀ (db : DBState) (fname : String) (fdata : Bytes) (fw f0 : FirmwareFile),
      FirmwareFile.from_file fname fdata = Except.ok fw →
      findRow db.firmware_files fw.name = some f0 →
      f0.version ≠ fw.version →
      ∃ db', DataInterface.add_firmware db [(fname, fdata)] = Except.ok db' ∧
        DataInterface.get_firmware db' fw.name = some (updRow f0 fw) ∧
        db'.firmware_files.map FirmwareFile.name =
          db.firmware_files.map FirmwareFile.name) := by
  refine ⟨?_, ?_, ?_⟩
  · intro db db' archive h hnd
    obtain ⟨hloop, -⟩ := add_firmware_ok_elim db db' archive h
    exact loop_nodup archive db.firmware_files db'.firmware_files hloop hnd
  · intro db db' archive h
    obtain ⟨hloop1, hshape⟩ := add_firmware_ok_elim db db' archive h
    have hparse := loop_all_parse archive db.firmware_files db'.firmware_files hloop1
    obtain ⟨files2, hloop2⟩ := loop_ok_exists archive hparse db'.firmware_files
    refine ⟨{ db' with firmware_files := files2 }, ?_, ?_⟩
    · unfold DataInterface.add_firmware
      rw [hloop2]
    · intro n
      show findRow files2 n = findRow db'.firmware_files n
      have hp2 := loop_proj archive db'.firmware_files files2 hloop2 n
      have hp1 := loop_proj archive db.firmware_files db'.firmware_files hloop1 n
      rw [hp2, hp1]
      exact stepsRow_idem (fwsOf archive n) n (fwsOf_names archive n)
        (findRow db.firmware_files n)
        (fun f hf => findRow_name db.firmware_files n f hf)
  · intro db fname fdata fw f0 hparse hfound hv
    have hmerge : mergeFw db.firmware_files fw = updateFirstRow db.firmware_files fw := by
      unfold mergeFw
      rw [hfound]
    have hloop : addFirmwareLoop db.firmware_files [(fname, fdata)] =
        Except.ok (updateFirstRow db.firmware_files fw) := by
      unfold addFirmwareLoop
      rw [hparse]
      unfold addFirmwareLoop
      rw [hmerge]
    refine ⟨{ db with firmware_files := updateFirstRow db.firmware_files fw }, ?_, ?_, ?_⟩
    · unfold DataInterface.add_firmware
      rw [hloop]
    · show findRow (updateFirstRow db.firmware_files fw) fw.name = some (updRow f0 fw)
      rw [findRow_updateFirstRow fw fw.name db.firmware_files, if_pos rfl, hfound]
      simp [hv]
    · exact updateFirstRow_map_name db.firmware_files fw

/-- The spec's §8 firmware archive with three well-formed entries. -/
def sampleArchive : List (String × Bytes) :=
  [("fw1-1.2.3-8ddd8be4b179a529afa5f2ffae4b9858.bin", [1]),
   ("fw2-1-3858f62230ac3c915f300c664312c63f.bin", [2]),
   ("fw3-2.4-85dbd03215461e59b6c6a163b80229a1.bin", [3])]

/-- Witness for C6: ingest the sample archive into the empty database
(names stay distinct), re-apply it (idempotent per name), and apply a
version bump for `fw1` against a one-row table (in-place overwrite). -/
theorem C6_add_firmware_idempotent_upsert_witness :
    ((applyAddFirmware DBState.empty sampleArchive).firmware_files.map
      FirmwareFile.name).Nodup ∧
    (∃ db'', DataInterface.add_firmware (applyAddFirmware DBState.empty sampleArchive)
        sampleArchive = Except.ok db'' ∧
      ∀ n, DataInterface.get_firmware db'' n =
        DataInterface.get_firmware (applyAddFirmware DBState.empty sampleArchive) n) ∧
    (∃ db', DataInterface.add_firmware
        { nodes := [], stats_entries := [], next_entry_id := 0,
          firmware_files := [{ name := "fw1", lib_version := "1.2.3",
                               hash := "8ddd8be4b179a529afa5f2ffae4b9858",
                               firmware := [1] }] }
        [("fw1-1.2.4-8ddd8be4b179a529afa5f2ffae4b9858.bin", [9])] = Except.ok db' ∧
      DataInterface.get_firmware db' "fw1" =
        some (updRow { name := "fw1", lib_version := "1.2.3",
                       hash := "8ddd8be4b179a529afa5f2ffae4b9858", firmware := [1] }
                     { name := "fw1", lib_version := "1.2.4",
                       hash := "8ddd8be4b179a529afa5f2ffae4b9858", firmware := [9] }) ∧
      db'.firmware_files.map FirmwareFile.name =
        [({ name := "fw1", lib_version := "1.2.3",
            hash := "8ddd8be4b179a529afa5f2ffae4b9858",
            firmware := [1] } : FirmwareFile)].map FirmwareFile.name) := by
  refine ⟨?_, ?_, ?_⟩
  · exact C6_add_firmware_idempotent_upsert.1 DBState.empty
      (applyAddFirmware DBState.empty sampleArchive) sampleArchive rfl (by decide)
  · exact C6_add_firmware_idempotent_upsert.2.1 DBState.empty
      (applyAddFirmware DBState.empty sampleArchive) sampleArchive rfl
  · exact C6_add_firmware_idempotent_upsert.2.2
      { nodes := [], stats_entries := [], next_entry_id := 0,
        firmware_files := [{ name := "fw1", lib_version := "1.2.3",
                             hash := "8ddd8be4b179a529afa5f2ffae4b9858",
                             firmware := [1] }] }
      "fw1-1.2.4-8ddd8be4b179a529afa5f2ffae4b9858.bin" [9]
      { name := "fw1", lib_version := "1.2.4",
        hash := "8ddd8be4b179a529afa5f2ffae4b9858", firmware := [9] }
      { name := "fw1", lib_version := "1.2.3",
        hash := "8ddd8be4b179a529afa5f2ffae4b9858", firmware := [1] }
      rfl rfl (by decide)
